import Mathlib

/-!
Shallow embedding of the `AddonBuilder` construct of the admiral repository
(`src/constructs/addon-builder.ts`, surfaced in `src/utils/validation-utils.ts`),
together with the `generateResourceName` helper from `src/utils`.

JavaScript runtime details that matter to the embedding:
* `Set` is modelled as an insertion-ordered duplicate-free `List String`
  (`setAdd`), `Map` as an insertion-ordered association list with
  replace-on-set semantics (`mapSet` / `mapGet`), and plain-object indexed
  assignment as `objSet`.
* string truthiness: the empty string is falsy (`strTruthy`); an absent
  optional boolean is falsy (`boolTruthy`); arrays and objects are always
  truthy.
* `throw` inside a `forEach` aborts the whole loop; this is modelled by
  `Except` (for pure validation) and by a fold returning the accumulator
  built so far plus an optional error (for the deployment walk).
* the class field `this.output` is assigned only after the deployment loop
  finishes; reads of `this.output` from inside the loop therefore see
  `undefined`, and any property access on it raises a `TypeError`.  The
  loop passes `none` for the field and `deployHelmChart` models the raised
  `TypeError` explicitly.
* the recursive DFS `visit` is embedded with explicit fuel; the dedicated
  error `AdmiralError.outOfFuel` is an artifact of the embedding and is
  proved unreachable for the fuel supplied by `resolveDeploymentOrder`.
-/

namespace Admiral

/-- Opaque stand-in for `iam.PolicyStatement` (passed through unexamined). -/
abbrev PolicyStatement := String

/-- Opaque stand-in for free-form Helm values (`Record<string, any>`). -/
inductive HelmValue where
  | str (s : String)
  | boolean (b : Bool)
  | undef
  | obj (fields : List (String × HelmValue))

abbrev HelmValues := List (String × HelmValue)

inductive DeploymentMethod where
  | cdkHelm
  | helmCli
  | kustomize
  | kubectl
deriving DecidableEq, Repr

structure HelmChartConfig where
  chart : String
  repository : Option String := none
  version : Option String := none
  release : Option String := none

structure ServiceAccountConfig where
  name : String
  «namespace» : String
  policyStatements : List PolicyStatement

structure AddonConfig where
  name : String
  enabled : Bool
  deploymentMethod : DeploymentMethod
  helmConfig : Option HelmChartConfig := none
  values : Option HelmValues := none
  valuesFile : Option String := none
  «namespace» : Option String := none
  createNamespace : Option Bool := none
  dependsOn : Option (List String) := none
  serviceAccount : Option ServiceAccountConfig := none

structure AddonDependency where
  addon : String
  dependsOn : List String

/-- The part of `eks.Cluster` the orchestrator reads. -/
structure Cluster where
  clusterOpenIdConnectIssuerUrl : String
  openIdConnectProviderArn : String

structure AddonBuilderProps where
  cluster : Cluster
  environment : String
  homelabType : String
  addons : List AddonConfig
  dependencies : List AddonDependency

/-- A namespace manifest submitted through `cluster.addManifest`. -/
structure KubernetesManifest where
  id : String
  apiVersion : String
  kind : String
  metadataName : String
  labels : List (String × String)

/-- Trust policy of the federated role (`iam.FederatedPrincipal`). -/
structure FederatedPrincipal where
  federated : String
  conditionsStringEquals : List (String × String)
  assumeAction : String

/-- An `iam.Role`; `roleArn` models the opaque CDK token for the role. -/
structure Role where
  roleName : String
  assumedBy : FederatedPrincipal
  policies : List PolicyStatement
  roleArn : String

/-- A Helm release submitted through `cluster.addHelmChart`; `dependencies`
records the manifest ids passed to `node.addDependency`. -/
structure HelmChart where
  id : String
  chart : String
  repository : Option String
  version : Option String
  release : String
  «namespace» : Option String
  createNamespace : Bool
  values : HelmValues
  dependencies : List String

structure AddonBuilderOutput where
  helmCharts : List HelmChart
  serviceAccounts : List (String × Role)
  namespaces : List KubernetesManifest
  deploymentOrder : List String

/-- Construction-time errors; each constructor corresponds to one `throw`
site of the source (plus the two embedding artifacts documented above). -/
inductive AdmiralError where
  | duplicateNames (names : List String)
  | missingName (index : Nat)
  | helmConfigRequired (name : String)
  | chartRequired (name : String)
  | serviceAccountIncomplete (name : String)
  | missingDependencyAddon (addon : String)
  | missingDependencyRef (addon : String) (ref : String)
  | circularDependency (name : String)
  | typeError (field : String)
  | outOfFuel
deriving DecidableEq, Repr

/-! JavaScript collection and truthiness helpers -/

/-- JS string truthiness of an optional string field. -/
def strTruthy : Option String → Bool
  | none => false
  | some s => s ≠ ""

/-- JS truthiness of an optional boolean field. -/
def boolTruthy : Option Bool → Bool
  | none => false
  | some b => b

/-- `Set.prototype.add`. -/
def setAdd (s : List String) (x : String) : List String :=
  if s.contains x then s else s ++ [x]

/-- String-keyed store update shared by `Map.prototype.set` and indexed
assignment on plain objects: replace the value of an existing key in
place, otherwise append the new key. -/
def jsSet {α : Type} (m : List (String × α)) (k : String) (v : α) :
    List (String × α) :=
  if m.any (fun p => p.1 == k) then
    m.map (fun p => if p.1 == k then (k, v) else p)
  else m ++ [(k, v)]

/-- String-keyed store lookup (`Map.prototype.get` / indexed read). -/
def jsGet {α : Type} (m : List (String × α)) (k : String) : Option α :=
  (m.find? (fun p => p.1 == k)).map (fun p => p.2)

/-- `Map.prototype.set` on the dependency map. -/
def mapSet (m : List (String × List String)) (k : String) (v : List String) :
    List (String × List String) :=
  jsSet m k v

/-- `Map.prototype.get` on the dependency map. -/
def mapGet (m : List (String × List String)) (k : String) :
    Option (List String) :=
  jsGet m k

/-- Indexed assignment `obj[key] = value` on the role map. -/
def objSet (m : List (String × Role)) (k : String) (v : Role) :
    List (String × Role) :=
  jsSet m k v

/-- Indexed read `obj[key]` on the role map. -/
def objGet (m : List (String × Role)) (k : String) : Option Role :=
  jsGet m k

/-- Assignment `obj[key] = value` for string-keyed Helm values
(spread `{ ...values, key: v }`: the later key overrides). -/
def valuesSet (m : HelmValues) (k : String) (v : HelmValue) : HelmValues :=
  jsSet m k v

/-- `String.prototype.replace` with a plain-string pattern: replaces the
first occurrence only. -/
def replaceFirst (s pat repl : String) : String :=
  match s.splitOn pat with
  | [] => s
  | a :: rest =>
    if rest.isEmpty then s
    else a ++ repl ++ String.intercalate pat rest

/-! Validation (`validateProps`) -/

/-- `addonNames.filter((name, index) => addonNames.indexOf(name) !== index)`. -/
def findDuplicates (names : List String) : List String :=
  (names.enum.filter (fun p => names.indexOf p.2 ≠ p.1)).map (fun p => p.2)

/-- The per-addon structural checks of `validateProps`, in source order. -/
def validateAddon (addon : AddonConfig) (index : Nat) :
    Except AdmiralError Unit :=
  if addon.name = "" then
    .error (.missingName index)
  else if addon.deploymentMethod = .cdkHelm ∧ addon.helmConfig.isNone then
    .error (.helmConfigRequired addon.name)
  else if (match addon.helmConfig with
           | some hc => hc.chart == ""
           | none => false : Bool) then
    .error (.chartRequired addon.name)
  else
    match addon.serviceAccount with
    | some sa =>
      if sa.name = "" ∨ sa.«namespace» = "" then
        .error (.serviceAccountIncomplete addon.name)
      else .ok ()
    | none => .ok ()

/-- `props.addons.forEach((addon, index) => ...)` with `throw` aborting. -/
def validateAddons : List AddonConfig → Nat → Except AdmiralError Unit
  | [], _ => .ok ()
  | addon :: rest, index =>
    match validateAddon addon index with
    | .error e => .error e
    | .ok _ => validateAddons rest (index + 1)

/-- Referential-integrity check of the `dependsOn` names of one entry. -/
def validateDepRefs (addons : List AddonConfig) (owner : String) :
    List String → Except AdmiralError Unit
  | [] => .ok ()
  | depName :: rest =>
    if addons.any (fun a => a.name == depName) then
      validateDepRefs addons owner rest
    else .error (.missingDependencyRef owner depName)

/-- Referential-integrity check of one explicit `AddonDependency` entry. -/
def validateDependency (addons : List AddonConfig) (dep : AddonDependency) :
    Except AdmiralError Unit :=
  if addons.any (fun a => a.name == dep.addon) then
    validateDepRefs addons dep.addon dep.dependsOn
  else .error (.missingDependencyAddon dep.addon)

/-- `props.dependencies.forEach((dep) => ...)` with `throw` aborting. -/
def validateDependencies (addons : List AddonConfig) :
    List AddonDependency → Except AdmiralError Unit
  | [] => .ok ()
  | dep :: rest =>
    match validateDependency addons dep with
    | .error e => .error e
    | .ok _ => validateDependencies addons rest

/-- `private validateProps`. -/
def validateProps (props : AddonBuilderProps) : Except AdmiralError Unit :=
  let addonNames := props.addons.map (fun a => a.name)
  let duplicates := findDuplicates addonNames
  if duplicates.length > 0 then
    .error (.duplicateNames duplicates)
  else
    match validateAddons props.addons 0 with
    | .error e => .error e
    | .ok _ => validateDependencies props.addons props.dependencies

/-! Dependency resolution (`resolveDeploymentOrder`) -/

/-- One step of the inline-`dependsOn` loop of `resolveDeploymentOrder`:
`if (addon.dependsOn && addon.dependsOn.length > 0)` append to the
existing entry. -/
def inlineStep (m : List (String × List String)) (addon : AddonConfig) :
    List (String × List String) :=
  match addon.dependsOn with
  | some ds =>
    if ds.length > 0 then
      mapSet m addon.name ((mapGet m addon.name).getD [] ++ ds)
    else m
  | none => m

/-- The merged dependency map: external entries first (`Map.set`, i.e.
replace on duplicate addon key), then each addon's inline `dependsOn`
appended to whatever the map already holds for that addon. -/
def buildDependencyMap (addons : List AddonConfig)
    (dependencies : List AddonDependency) : List (String × List String) :=
  let m := dependencies.foldl (fun m dep => mapSet m dep.addon dep.dependsOn) []
  addons.foldl inlineStep m

/-- State of the depth-first traversal: the JS sets `visiting` and
`visited` and the output array `result`. -/
structure SortState where
  visiting : List String
  visited : List String
  result : List String

/-- The `deps.forEach` loop inside `visit`: visit each dependency that is
a name of the addon set, abort on the first thrown error. -/
def visitDeps (addonNames : List String)
    (visitFn : String → SortState → Except AdmiralError SortState) :
    List String → SortState → Except AdmiralError SortState
  | [], st => .ok st
  | dep :: rest, st =>
    if addonNames.contains dep then
      match visitFn dep st with
      | .error e => .error e
      | .ok st' => visitDeps addonNames visitFn rest st'
    else
      visitDeps addonNames visitFn rest st

/-- The recursive `visit` closure, with explicit fuel (the source recurses
on the call stack; `resolveDeploymentOrder` supplies enough fuel below). -/
def visit (addonNames : List String) (depMap : List (String × List String)) :
    Nat → String → SortState → Except AdmiralError SortState
  | 0, _, _ => .error .outOfFuel
  | fuel + 1, addonName, st =>
    if st.visiting.contains addonName then
      .error (.circularDependency addonName)
    else if st.visited.contains addonName then
      .ok st
    else
      match visitDeps addonNames (fun d s => visit addonNames depMap fuel d s)
          ((mapGet depMap addonName).getD [])
          { st with visiting := setAdd st.visiting addonName } with
      | .error e => .error e
      | .ok st2 =>
        .ok { visiting := st2.visiting.erase addonName,
              visited := setAdd st2.visited addonName,
              result := st2.result ++ [addonName] }

/-- `addonNames.forEach((addonName) => { if (!visited.has(addonName)) visit(addonName); })`. -/
def visitAll (addonNames : List String) (depMap : List (String × List String))
    (fuel : Nat) : List String → SortState → Except AdmiralError SortState
  | [], st => .ok st
  | name :: rest, st =>
    if st.visited.contains name then
      visitAll addonNames depMap fuel rest st
    else
      match visit addonNames depMap fuel name st with
      | .error e => .error e
      | .ok st' => visitAll addonNames depMap fuel rest st'

/-- `private resolveDeploymentOrder`. -/
def resolveDeploymentOrder (addons : List AddonConfig)
    (dependencies : List AddonDependency) :
    Except AdmiralError (List String) :=
  let addonNames := addons.map (fun a => a.name)
  let depMap := buildDependencyMap addons dependencies
  match visitAll addonNames depMap (addonNames.length + 1) addonNames
      ⟨[], [], []⟩ with
  | .error e => .error e
  | .ok st => .ok st.result

/-! Deployment execution (constructor body) -/

/-- `generateResourceName` from `src/utils` (README, aws-utils). -/
def generateResourceName (pre environment resourceType : String)
    (suffix : Option String := none) : String :=
  let parts := [pre, environment, resourceType] ++
    (if strTruthy suffix then [suffix.getD ""] else [])
  (String.intercalate "-" parts).toLower

/-- `private createNamespace` (the source asserts `namespace!`). -/
def createNamespace (_cluster : Cluster) (addonConfig : AddonConfig) :
    KubernetesManifest :=
  { id := addonConfig.name ++ "-namespace"
    apiVersion := "v1"
    kind := "Namespace"
    metadataName := addonConfig.«namespace».getD ""
    labels := [("app.kubernetes.io/managed-by", "admiral"),
               ("admiral.homelab/addon", addonConfig.name)] }

/-- `private createServiceAccountRole` (the source asserts
`serviceAccount!`; the `none` branch is unreachable from the call site). -/
def createServiceAccountRole (cluster : Cluster) (addonConfig : AddonConfig)
    (environment : String) : Role :=
  let sa := addonConfig.serviceAccount.getD ⟨"", "", []⟩
  let roleName := generateResourceName "admiral" environment ("sa-" ++ sa.name)
  let oidcProviderUrl := cluster.clusterOpenIdConnectIssuerUrl
  let oidcProviderArn := cluster.openIdConnectProviderArn
  { roleName := roleName
    assumedBy := {
        federated := oidcProviderArn
        conditionsStringEquals := [
          (replaceFirst oidcProviderUrl "https://" "" ++ ":sub",
            "system:serviceaccount:" ++ sa.«namespace» ++ ":" ++ sa.name),
          (replaceFirst oidcProviderUrl "https://" "" ++ ":aud",
            "sts.amazonaws.com")]
        assumeAction := "sts:AssumeRoleWithWebIdentity" }
    policies := sa.policyStatements
    roleArn := "arn:aws:iam::role/" ++ roleName }

/-- `String.prototype.includes`. -/
def strIncludes (s pat : String) : Bool :=
  pat == "" || (s.splitOn pat).length != 1

/-- `private deployHelmChart`.  `thisOutput` is the value of `this.output`
at call time: during the constructor loop the field is still unassigned
(`none`), so the reads at the service-account merge and at the namespace
dependency lookup raise a `TypeError`. -/
def deployHelmChart (_cluster : Cluster) (addonConfig : AddonConfig)
    (environment : String) (thisOutput : Option AddonBuilderOutput) :
    Except AdmiralError HelmChart :=
  match addonConfig.helmConfig with
  | none => .error (.typeError "helmConfig")
  | some helmConfig =>
    let releaseName :=
      if strTruthy helmConfig.release then helmConfig.release.getD ""
      else addonConfig.name ++ "-" ++ environment
    let values0 := addonConfig.values.getD []
    let valuesE : Except AdmiralError HelmValues :=
      match addonConfig.serviceAccount with
      | some sa =>
        match thisOutput with
        | none => .error (.typeError "serviceAccounts")
        | some o =>
          .ok (valuesSet values0 "serviceAccount" (.obj
            [("create", .boolean false),
             ("name", .str sa.name),
             ("annotations", .obj
               [("eks.amazonaws.com/role-arn",
                 match (objGet o.serviceAccounts addonConfig.name).map
                     (fun r => r.roleArn) with
                 | some arn => .str arn
                 | none => .undef)])]))
      | none => .ok values0
    match valuesE with
    | .error e => .error e
    | .ok values =>
      let helmChart : HelmChart :=
        { id := addonConfig.name ++ "-chart"
          chart := helmConfig.chart
          repository := helmConfig.repository
          version := helmConfig.version
          release := releaseName
          «namespace» := addonConfig.«namespace»
          createNamespace := false
          values := values
          dependencies := [] }
      if boolTruthy addonConfig.createNamespace ∧
          strTruthy addonConfig.«namespace» then
        match thisOutput with
        | none => .error (.typeError "namespaces")
        | some o =>
          match o.namespaces.find? (fun ns =>
              strIncludes ns.id (addonConfig.name ++ "-namespace")) with
          | some ns =>
            .ok { helmChart with dependencies := helmChart.dependencies ++ [ns.id] }
          | none => .ok helmChart
      else .ok helmChart

/-- The accumulating local variables of the constructor loop. -/
structure DeployAcc where
  helmCharts : List HelmChart
  serviceAccounts : List (String × Role)
  namespaces : List KubernetesManifest

def emptyAcc : DeployAcc := ⟨[], [], []⟩

/-- One iteration of `deploymentOrder.forEach((addonName) => ...)`. -/
def deployStep (props : AddonBuilderProps) (acc : DeployAcc)
    (addonName : String) : DeployAcc × Option AdmiralError :=
  match props.addons.find? (fun addon => addon.name == addonName) with
  | none => (acc, none)
  | some addonConfig =>
    if ¬ addonConfig.enabled then (acc, none)
    else
      let acc :=
        if boolTruthy addonConfig.createNamespace ∧
            strTruthy addonConfig.«namespace» then
          { acc with namespaces := acc.namespaces ++
              [createNamespace props.cluster addonConfig] }
        else acc
      let acc :=
        match addonConfig.serviceAccount with
        | some _ =>
          { acc with serviceAccounts := objSet acc.serviceAccounts addonName
                        (createServiceAccountRole props.cluster addonConfig
                          props.environment) }
        | none => acc
      if addonConfig.deploymentMethod = .cdkHelm ∧
          addonConfig.helmConfig.isSome then
        match deployHelmChart props.cluster addonConfig props.environment
            none with
        | .error e => (acc, some e)
        | .ok helmChart =>
          ({ acc with helmCharts := acc.helmCharts ++ [helmChart] }, none)
      else (acc, none)

/-- The whole deployment walk; a thrown error aborts the walk but the
side effects already materialized are kept in the accumulator. -/
def deployAddons (props : AddonBuilderProps) :
    List String → DeployAcc → DeployAcc × Option AdmiralError
  | [], acc => (acc, none)
  | name :: rest, acc =>
    match deployStep props acc name with
    | (acc', some e) => (acc', some e)
    | (acc', none) => deployAddons props rest acc'

/-- The `AddonBuilder` constructor: validate, resolve the order, walk it. -/
def construct (props : AddonBuilderProps) :
    Except AdmiralError AddonBuilderOutput :=
  match validateProps props with
  | .error e => .error e
  | .ok _ =>
    match resolveDeploymentOrder props.addons props.dependencies with
    | .error e => .error e
    | .ok deploymentOrder =>
      match deployAddons props deploymentOrder emptyAcc with
      | (_, some e) => .error e
      | (acc, none) =>
        .ok { helmCharts := acc.helmCharts
              serviceAccounts := acc.serviceAccounts
              namespaces := acc.namespaces
              deploymentOrder := deploymentOrder }

/-- The cloud side effects materialized by a constructor call, kept even
when the constructor aborts with an exception. -/
def constructSideEffects (props : AddonBuilderProps) : DeployAcc :=
  match validateProps props with
  | .error _ => emptyAcc
  | .ok _ =>
    match resolveDeploymentOrder props.addons props.dependencies with
    | .error _ => emptyAcc
    | .ok deploymentOrder => (deployAddons props deploymentOrder emptyAcc).1

/-! Query surface -/

/-- `public getAddon` (the source body returns `undefined` unconditionally). -/
def getAddon (_builder : AddonBuilderOutput) (_name : String) :
    Option AddonConfig :=
  none

/-- `public isAddonDeployed`. -/
def isAddonDeployed (builder : AddonBuilderOutput) (name : String) : Bool :=
  builder.deploymentOrder.contains name

/-- `public getServiceAccountRole`. -/
def getServiceAccountRole (builder : AddonBuilderOutput)
    (addonName : String) : Option Role :=
  objGet builder.serviceAccounts addonName

/-! The dependency relation consumed by the topological sort -/

/-- The dependency list the DFS reads for a name. -/
def depsOf (depMap : List (String × List String)) (a : String) :
    List String :=
  (mapGet depMap a).getD []

/-- `depEdge names depMap a b`: addon `a` depends on addon `b`, both
restricted to names of the addon set (the DFS filters exactly so). -/
def depEdge (addonNames : List String) (depMap : List (String × List String))
    (a b : String) : Prop :=
  a ∈ addonNames ∧ b ∈ addonNames ∧ b ∈ depsOf depMap a

/-- The dependency relation of a props record. -/
def propsEdge (props : AddonBuilderProps) (a b : String) : Prop :=
  depEdge (props.addons.map (fun x => x.name))
    (buildDependencyMap props.addons props.dependencies) a b

/-! Verification layer for the depth-first topological sort -/

/-- Number of addon names not currently on the DFS stack; the fuel bound. -/
def unvisitedCount (addonNames visiting : List String) : Nat :=
  (addonNames.filter (fun x => decide (x ∉ visiting))).length

/-- `ChainTo l b`: the DFS stack `l` is a dependency chain whose last
element (if any) depends on `b`; used to turn the in-progress check into
an actual dependency cycle. -/
inductive ChainTo (N : List String) (M : List (String × List String)) :
    List String → String → Prop where
  | nil (b : String) : ChainTo N M [] b
  | single {u b : String} (h : depEdge N M u b) : ChainTo N M [u] b
  | cons {u v b : String} {rest : List String} (h : depEdge N M u v)
      (ht : ChainTo N M (v :: rest) b) : ChainTo N M (u :: v :: rest) b

/-- The result list is closed under in-set dependencies, each dependency
strictly earlier. -/
def ResultClosed (N : List String) (M : List (String × List String))
    (res : List String) : Prop :=
  ∀ a ∈ res, ∀ b ∈ depsOf M a, b ∈ N →
    b ∈ res ∧ res.indexOf b < res.indexOf a

/-- Invariants of the DFS state. -/
structure GoodState (N : List String) (M : List (String × List String))
    (st : SortState) : Prop where
  visEq : st.visited = st.result
  nodup : st.result.Nodup
  subN : ∀ x ∈ st.result, x ∈ N
  closed : ResultClosed N M st.result
  disj : ∀ x ∈ st.visiting, x ∉ st.result

/-- Relation between the states before and after an `ok` run of `visit`
or of the dependency loop. -/
structure VisitPost (N : List String) (M : List (String × List String))
    (stIn stOut : SortState) : Prop where
  good : GoodState N M stOut
  ext : ∃ new, stOut.result = stIn.result ++ new
  visSame : stOut.visiting = stIn.visiting
  newNotVis : ∀ x ∈ stOut.result, x ∉ stIn.result → x ∉ stIn.visiting

/-! Basic lemmas on the JS collection helpers -/

theorem find?_map_replace {α : Type} (m : List (String × α)) (k : String)
    (v : α) :
    (m.map (fun p => if p.1 == k then (k, v) else p)).find?
        (fun p => p.1 == k) =
      if m.any (fun p => p.1 == k) then some (k, v) else none := by
  induction m with
  | nil => rfl
  | cons p rest ih =>
    cases hb : (p.1 == k) with
    | true =>
      simp only [List.map_cons, List.any_cons, hb, if_true, Bool.true_or,
        List.find?_cons, beq_self_eq_true]
    | false =>
      simp only [List.map_cons, List.any_cons, hb, Bool.false_eq_true,
        if_false, List.find?_cons, Bool.false_or]
      exact ih

theorem find?_map_replace_ne {α : Type} (m : List (String × α))
    (k k' : String) (v : α) (h : ¬ k = k') :
    (m.map (fun p => if p.1 == k then (k, v) else p)).find?
        (fun p => p.1 == k') =
      m.find? (fun p => p.1 == k') := by
  induction m with
  | nil => rfl
  | cons p rest ih =>
    cases hb : (p.1 == k) with
    | true =>
      have hp : p.1 = k := beq_iff_eq.1 hb
      have hb' : (p.1 == k') = false := by
        simp [beq_iff_eq, hp, h]
      have hkk' : (k == k') = false := by simp [beq_iff_eq, h]
      simp only [List.map_cons, hb, if_true, List.find?_cons, hkk', hb']
      exact ih
    | false =>
      simp only [List.map_cons, hb, Bool.false_eq_true, if_false,
        List.find?_cons]
      cases hb' : (p.1 == k') with
      | true => rfl
      | false => exact ih

theorem jsGet_jsSet_self {α : Type} (m : List (String × α)) (k : String)
    (v : α) : jsGet (jsSet m k v) k = some v := by
  unfold jsSet jsGet
  cases h : m.any (fun p => p.1 == k) with
  | true =>
    simp only [h, if_true]
    rw [find?_map_replace]
    simp [h]
  | false =>
    simp only [h, Bool.false_eq_true, if_false]
    rw [List.find?_append]
    have hm : m.find? (fun p => p.1 == k) = none :=
      List.find?_eq_none.2 (List.any_eq_false.1 h)
    simp [hm, List.find?_cons]

theorem jsGet_jsSet_ne {α : Type} (m : List (String × α)) (k k' : String)
    (v : α) (h : ¬ k = k') : jsGet (jsSet m k v) k' = jsGet m k' := by
  unfold jsSet jsGet
  cases hany : m.any (fun p => p.1 == k) with
  | true =>
    simp only [hany, if_true]
    rw [find?_map_replace_ne _ _ _ _ h]
  | false =>
    simp only [hany, Bool.false_eq_true, if_false]
    rw [List.find?_append]
    simp [List.find?_cons, beq_iff_eq, h]

theorem mapGet_mapSet_self (m : List (String × List String)) (k : String)
    (v : List String) : mapGet (mapSet m k v) k = some v :=
  jsGet_jsSet_self m k v

theorem mapGet_mapSet_ne (m : List (String × List String)) (k k' : String)
    (v : List String) (h : ¬ k = k') : mapGet (mapSet m k v) k' = mapGet m k' :=
  jsGet_jsSet_ne m k k' v h

theorem objGet_objSet_self (m : List (String × Role)) (k : String)
    (v : Role) : objGet (objSet m k v) k = some v :=
  jsGet_jsSet_self m k v

theorem objGet_objSet_ne (m : List (String × Role)) (k k' : String)
    (v : Role) (h : ¬ k = k') : objGet (objSet m k v) k' = objGet m k' :=
  jsGet_jsSet_ne m k k' v h

theorem setAdd_of_not_mem {s : List String} {x : String}
    (h : x ∉ s) : setAdd s x = s ++ [x] := by
  simp [setAdd, h]

theorem setAdd_of_mem {s : List String} {x : String}
    (h : x ∈ s) : setAdd s x = s := by
  simp [setAdd, h]

/-! Chain and counting lemmas for the DFS -/

theorem contains_iff_mem (l : List String) (x : String) :
    l.contains x = true ↔ x ∈ l := by
  simp

theorem contains_false_iff (l : List String) (x : String) :
    l.contains x = false ↔ x ∉ l := by
  rw [← Bool.not_eq_true, contains_iff_mem]

theorem setAdd_eq_append {s : List String} {x : String}
    (h : s.contains x = false) : setAdd s x = s ++ [x] := by
  have hx : x ∉ s := (contains_false_iff s x).1 h
  simp [setAdd, hx]

theorem chainTo_snoc {N : List String} {M : List (String × List String)}
    {l : List String} {b d : String}
    (h : ChainTo N M l b) :
    depEdge N M b d → ChainTo N M (l ++ [b]) d := by
  induction h with
  | nil => intro hd; exact .single hd
  | single h2 => intro hd; exact .cons h2 (.single hd)
  | cons h2 ht ih => intro hd; exact .cons h2 (ih hd)

theorem chainTo_transGen {N : List String} {M : List (String × List String)}
    {l : List String} {b : String} (h : ChainTo N M l b) :
    ∀ u rest, l = u :: rest → Relation.TransGen (depEdge N M) u b := by
  induction h with
  | nil => intro u rest hl; exact absurd hl (by simp)
  | single h' =>
    intro u rest hl
    injection hl with h1 _
    subst h1
    exact Relation.TransGen.single h'
  | cons h' ht ih =>
    intro u rest hl
    injection hl with h1 _
    subst h1
    exact Relation.TransGen.head h' (ih _ _ rfl)

theorem chainTo_cycle {N : List String} {M : List (String × List String)}
    {l : List String} {b : String} (h : ChainTo N M l b) :
    b ∈ l → Relation.TransGen (depEdge N M) b b := by
  induction h with
  | nil => intro hb; simp at hb
  | single h2 =>
    intro hb
    have hbe := List.mem_singleton.1 hb
    subst hbe
    exact Relation.TransGen.single h2
  | cons h2 ht ih =>
    intro hb
    rcases List.mem_cons.1 hb with hbe | hbr
    · subst hbe
      exact Relation.TransGen.head h2 (chainTo_transGen ht _ _ rfl)
    · exact ih hbr

theorem filter_length_mono {α : Type} (l : List α) (p q : α → Bool)
    (h : ∀ a, p a = true → q a = true) :
    (l.filter p).length ≤ (l.filter q).length := by
  induction l with
  | nil => simp
  | cons a t ih =>
    cases hp : p a with
    | true =>
      have hq := h a hp
      simp [List.filter_cons, hp, hq, Nat.succ_le_succ ih]
    | false =>
      cases hq : q a with
      | true =>
        simp only [List.filter_cons, hp, hq, Bool.false_eq_true, if_false,
          if_true, List.length_cons]
        omega
      | false =>
        simpa [List.filter_cons, hp, hq] using ih

theorem unvisitedCount_append_lt (N visiting : List String) (name : String)
    (hmem : name ∈ N) (hnc : visiting.contains name = false) :
    unvisitedCount N (visiting ++ [name]) < unvisitedCount N visiting := by
  have hnv : name ∉ visiting := (contains_false_iff visiting name).1 hnc
  induction N with
  | nil => simp at hmem
  | cons x t ih =>
    unfold unvisitedCount
    by_cases hx : x = name
    · subst hx
      have hL : (decide (x ∉ visiting ++ [x])) = false := by
        simp
      have hR : (decide (x ∉ visiting)) = true := by
        simpa using hnv
      simp only [List.filter_cons, hL, hR, Bool.false_eq_true, if_false,
        if_true, List.length_cons]
      have hmono : (t.filter (fun y => decide (y ∉ visiting ++ [x]))).length ≤
          (t.filter (fun y => decide (y ∉ visiting))).length := by
        refine filter_length_mono t _ _ ?_
        intro a ha
        simp only [decide_eq_true_eq, List.mem_append] at ha ⊢
        intro hv
        exact ha (Or.inl hv)
      omega
    · have hmem2 : name ∈ t := by
        rcases List.mem_cons.1 hmem with h1 | h1
        · exact absurd h1.symm hx
        · exact h1
      have hlt := ih hmem2
      unfold unvisitedCount at hlt
      have hxx : (decide (x ∉ visiting ++ [name])) =
          (decide (x ∉ visiting)) := by
        by_cases hv : x ∈ visiting
        · simp [hv]
        · simp [hv, List.mem_append, hx]
      simp only [List.filter_cons, hxx]
      cases hd : (decide (x ∉ visiting)) with
      | true =>
        simp only [if_true, List.length_cons]
        omega
      | false =>
        simpa using hlt

/-! Soundness of `visit`: an `ok` run preserves the invariants -/

theorem visitPost_refl {N : List String} {M : List (String × List String)}
    {st : SortState} (h : GoodState N M st) : VisitPost N M st st :=
  ⟨h, ⟨[], by simp⟩, rfl, fun x hx hnx => absurd hx hnx⟩

theorem visitPost_trans {N : List String} {M : List (String × List String)}
    {s1 s2 s3 : SortState} (p : VisitPost N M s1 s2)
    (q : VisitPost N M s2 s3) : VisitPost N M s1 s3 := by
  refine ⟨q.good, ?_, q.visSame.trans p.visSame, ?_⟩
  · obtain ⟨n1, h1⟩ := p.ext
    obtain ⟨n2, h2⟩ := q.ext
    exact ⟨n1 ++ n2, by rw [h2, h1, List.append_assoc]⟩
  · intro x hx hnx
    by_cases h2 : x ∈ s2.result
    · exact p.newNotVis x h2 hnx
    · have hq := q.newNotVis x hx h2
      rwa [p.visSame] at hq

theorem visitPost_mem {N : List String} {M : List (String × List String)}
    {s1 s2 : SortState} {x : String} (p : VisitPost N M s1 s2)
    (hx : x ∈ s1.result) : x ∈ s2.result := by
  obtain ⟨n, h⟩ := p.ext
  rw [h]
  exact List.mem_append_left _ hx

theorem visitDeps_ok_post (N : List String) (M : List (String × List String))
    (fuel : Nat)
    (IH : ∀ (name : String) (st st' : SortState), name ∈ N →
      GoodState N M st → visit N M fuel name st = .ok st' →
      VisitPost N M st st' ∧ name ∈ st'.result) :
    ∀ (deps : List String) (st st' : SortState), GoodState N M st →
      visitDeps N (fun d s => visit N M fuel d s) deps st = .ok st' →
      VisitPost N M st st' ∧ ∀ d ∈ deps, d ∈ N → d ∈ st'.result := by
  intro deps
  induction deps with
  | nil =>
    intro st st' hg hok
    simp only [visitDeps] at hok
    injection hok with h
    subst h
    exact ⟨visitPost_refl hg, by simp⟩
  | cons dep rest ih =>
    intro st st' hg hok
    simp only [visitDeps] at hok
    cases hc : N.contains dep with
    | false =>
      simp only [hc, Bool.false_eq_true, if_false] at hok
      obtain ⟨post, hdone⟩ := ih st st' hg hok
      refine ⟨post, ?_⟩
      intro d hd hdN
      rcases List.mem_cons.1 hd with rfl | hd'
      · have hct : N.contains d = true := (contains_iff_mem N d).2 hdN
        rw [hc] at hct
        exact absurd hct (by simp)
      · exact hdone d hd' hdN
    | true =>
      simp only [hc, if_true] at hok
      cases hv : visit N M fuel dep st with
      | error e => rw [hv] at hok; cases hok
      | ok stMid =>
        rw [hv] at hok
        obtain ⟨p1, hdep⟩ := IH dep st stMid ((contains_iff_mem N dep).1 hc)
          hg hv
        obtain ⟨p2, hdone⟩ := ih stMid st' p1.good hok
        refine ⟨visitPost_trans p1 p2, ?_⟩
        intro d hd hdN
        rcases List.mem_cons.1 hd with rfl | hd'
        · exact visitPost_mem p2 hdep
        · exact hdone d hd' hdN

/-- Unfolding: no fuel. -/
theorem visit_zero (N : List String) (M : List (String × List String))
    (name : String) (st : SortState) :
    visit N M 0 name st = .error .outOfFuel := rfl

/-- Unfolding: the in-progress (cycle) branch. -/
theorem visit_succ_visiting (N : List String)
    (M : List (String × List String)) (fuel : Nat) (name : String)
    (st : SortState) (h : st.visiting.contains name = true) :
    visit N M (fuel + 1) name st = .error (.circularDependency name) := by
  simp only [visit, h, if_true]

/-- Unfolding: the already-done branch. -/
theorem visit_succ_visited (N : List String)
    (M : List (String × List String)) (fuel : Nat) (name : String)
    (st : SortState) (h1 : st.visiting.contains name = false)
    (h2 : st.visited.contains name = true) :
    visit N M (fuel + 1) name st = .ok st := by
  simp only [visit, h1, h2, Bool.false_eq_true, if_false, if_true]

/-- Unfolding: the recursive branch. -/
theorem visit_succ_main (N : List String) (M : List (String × List String))
    (fuel : Nat) (name : String) (st : SortState)
    (h1 : st.visiting.contains name = false)
    (h2 : st.visited.contains name = false) :
    visit N M (fuel + 1) name st =
      match visitDeps N (fun d s => visit N M fuel d s)
          ((mapGet M name).getD [])
          { st with visiting := setAdd st.visiting name } with
      | .error e => .error e
      | .ok st2 =>
        .ok { visiting := st2.visiting.erase name,
              visited := setAdd st2.visited name,
              result := st2.result ++ [name] } := by
  simp only [visit, h1, h2, Bool.false_eq_true, if_false]

theorem visit_ok_post (N : List String) (M : List (String × List String)) :
    ∀ (fuel : Nat) (name : String) (st st' : SortState),
      name ∈ N → GoodState N M st → visit N M fuel name st = .ok st' →
      VisitPost N M st st' ∧ name ∈ st'.result := by
  intro fuel
  induction fuel with
  | zero =>
    intro name st st' _ _ hok
    rw [visit_zero] at hok
    cases hok
  | succ fuel IH =>
    intro name st st' hname hg hok
    cases hvis : st.visiting.contains name with
    | true =>
      rw [visit_succ_visiting N M fuel name st hvis] at hok
      cases hok
    | false =>
      cases hvtd : st.visited.contains name with
      | true =>
        rw [visit_succ_visited N M fuel name st hvis hvtd] at hok
        injection hok with h
        subst h
        refine ⟨visitPost_refl hg, ?_⟩
        have hm : name ∈ st.visited := (contains_iff_mem _ _).1 hvtd
        rwa [hg.visEq] at hm
      | false =>
        rw [visit_succ_main N M fuel name st hvis hvtd] at hok
        have hnr : name ∉ st.result := by
          have h1 : name ∉ st.visited := (contains_false_iff _ _).1 hvtd
          rwa [hg.visEq] at h1
        have hg1 : GoodState N M
            { st with visiting := setAdd st.visiting name } := by
          refine ⟨hg.visEq, hg.nodup, hg.subN, hg.closed, ?_⟩
          intro x hx
          have hx' : x ∈ st.visiting ++ [name] := by
            rwa [← setAdd_eq_append hvis]
          rcases List.mem_append.1 hx' with hx1 | hx1
          · exact hg.disj x hx1
          · have hxe : x = name := by simpa using hx1
            subst hxe
            exact hnr
        revert hok
        cases hvd : visitDeps N (fun d s => visit N M fuel d s)
            ((mapGet M name).getD [])
            { st with visiting := setAdd st.visiting name } with
        | error e =>
          intro hok
          cases hok
        | ok st2 =>
          intro hok
          injection hok with h
          subst h
          obtain ⟨p1, hdone⟩ := visitDeps_ok_post N M fuel IH _ _ st2 hg1 hvd
          have hvs2 : st2.visiting = st.visiting ++ [name] := by
            rw [p1.visSame]
            exact setAdd_eq_append hvis
          have hnst2 : name ∉ st2.result := by
            intro hm2
            have hnot1 : name ∉
                ({ st with visiting := setAdd st.visiting name } :
                  SortState).result := hnr
            have hnv := p1.newNotVis name hm2 hnot1
            apply hnv
            show name ∈ setAdd st.visiting name
            rw [setAdd_eq_append hvis]
            exact List.mem_append_right _ (by simp)
          have herase : st2.visiting.erase name = st.visiting := by
            rw [hvs2,
              List.erase_append_right _ ((contains_false_iff _ _).1 hvis)]
            simp
          have hsetAdd2 : setAdd st2.visited name = st2.visited ++ [name] := by
            apply setAdd_eq_append
            apply (contains_false_iff _ _).2
            rw [p1.good.visEq]
            exact hnst2
          have hgood : GoodState N M
              { visiting := st2.visiting.erase name,
                visited := setAdd st2.visited name,
                result := st2.result ++ [name] } := by
            refine ⟨?_, ?_, ?_, ?_, ?_⟩
            · show setAdd st2.visited name = st2.result ++ [name]
              rw [hsetAdd2, p1.good.visEq]
            · show (st2.result ++ [name]).Nodup
              have hn2 := p1.good.nodup
              simp [List.nodup_append, hnst2, hn2]
            · intro x hx
              rcases List.mem_append.1 hx with h1 | h1
              · exact p1.good.subN x h1
              · have hxe : x = name := by simpa using h1
                subst hxe
                exact hname
            · intro a ha b hb hbN
              rcases List.mem_append.1 ha with h1 | h1
              · obtain ⟨hbm, hlt⟩ := p1.good.closed a h1 b hb hbN
                refine ⟨List.mem_append_left _ hbm, ?_⟩
                rw [List.indexOf_append_of_mem hbm,
                  List.indexOf_append_of_mem h1]
                exact hlt
              · have hae : a = name := by simpa using h1
                subst hae
                have hbm : b ∈ st2.result := hdone b hb hbN
                refine ⟨List.mem_append_left _ hbm, ?_⟩
                rw [List.indexOf_append_of_mem hbm,
                  List.indexOf_append_of_not_mem hnst2]
                have hblt : List.indexOf b st2.result < st2.result.length :=
                  List.indexOf_lt_length.2 hbm
                simp only [List.indexOf_cons_self, Nat.add_zero]
                exact hblt
            · intro x hx
              have hx' : x ∈ st.visiting := by rwa [herase] at hx
              intro hmem
              rcases List.mem_append.1 hmem with h1 | h1
              · have hx2 : x ∈ st2.visiting := by
                  rw [hvs2]
                  exact List.mem_append_left _ hx'
                exact p1.good.disj x hx2 h1
              · have hxe : x = name := by simpa using h1
                subst hxe
                exact ((contains_false_iff _ _).1 hvis) hx'
          have hext : ∃ new, st2.result ++ [name] = st.result ++ new := by
            obtain ⟨new1, h1⟩ := p1.ext
            exact ⟨new1 ++ [name], by
              rw [← List.append_assoc, ← h1]⟩
          refine ⟨⟨hgood, hext, herase, ?_⟩, ?_⟩
          · intro x hx hnx
            rcases List.mem_append.1 hx with h1 | h1
            · have hnx1 : x ∉
                  ({ st with visiting := setAdd st.visiting name } :
                    SortState).result := hnx
              have hnv := p1.newNotVis x h1 hnx1
              intro hxv
              apply hnv
              show x ∈ setAdd st.visiting name
              rw [setAdd_eq_append hvis]
              exact List.mem_append_left _ hxv
            · have hxe : x = name := by simpa using h1
              subst hxe
              exact (contains_false_iff _ _).1 hvis
          · exact List.mem_append_right _ (by simp)

/-! Totality of `visit`: with enough fuel the DFS either succeeds or
reports a genuine dependency cycle -/

theorem goodState_push {N : List String} {M : List (String × List String)}
    {st : SortState} {name : String} (hg : GoodState N M st)
    (hvis : st.visiting.contains name = false)
    (hvtd : st.visited.contains name = false) :
    GoodState N M { st with visiting := setAdd st.visiting name } := by
  have hnr : name ∉ st.result := by
    have h1 : name ∉ st.visited := (contains_false_iff _ _).1 hvtd
    rwa [hg.visEq] at h1
  refine ⟨hg.visEq, hg.nodup, hg.subN, hg.closed, ?_⟩
  intro x hx
  have hx' : x ∈ st.visiting ++ [name] := by
    rwa [← setAdd_eq_append hvis]
  rcases List.mem_append.1 hx' with hx1 | hx1
  · exact hg.disj x hx1
  · have hxe : x = name := by simpa using hx1
    subst hxe
    exact hnr

theorem visitDeps_cons_not (N : List String)
    (visitFn : String → SortState → Except AdmiralError SortState)
    (dep : String) (rest : List String) (st : SortState)
    (h : N.contains dep = false) :
    visitDeps N visitFn (dep :: rest) st = visitDeps N visitFn rest st := by
  simp only [visitDeps, h, Bool.false_eq_true, if_false]

theorem visitDeps_cons_mem (N : List String)
    (visitFn : String → SortState → Except AdmiralError SortState)
    (dep : String) (rest : List String) (st : SortState)
    (h : N.contains dep = true) :
    visitDeps N visitFn (dep :: rest) st =
      match visitFn dep st with
      | .error e => .error e
      | .ok st' => visitDeps N visitFn rest st' := by
  simp only [visitDeps, h, if_true]

theorem visitDeps_total (N : List String) (M : List (String × List String))
    (fuel : Nat)
    (IH : ∀ (name : String) (st : SortState), name ∈ N →
      GoodState N M st → ChainTo N M st.visiting name →
      unvisitedCount N st.visiting < fuel →
      (∃ st', visit N M fuel name st = .ok st') ∨
      (∃ n, visit N M fuel name st = .error (.circularDependency n) ∧
        Relation.TransGen (depEdge N M) n n)) :
    ∀ (deps : List String) (st : SortState), GoodState N M st →
      (∀ d ∈ deps, d ∈ N → ChainTo N M st.visiting d) →
      unvisitedCount N st.visiting < fuel →
      (∃ st', visitDeps N (fun d s => visit N M fuel d s) deps st = .ok st') ∨
      (∃ n, visitDeps N (fun d s => visit N M fuel d s) deps st =
          .error (.circularDependency n) ∧
        Relation.TransGen (depEdge N M) n n) := by
  intro deps
  induction deps with
  | nil =>
    intro st _ _ _
    exact Or.inl ⟨st, rfl⟩
  | cons dep rest ih =>
    intro st hg hchain hcount
    cases hc : N.contains dep with
    | false =>
      rw [visitDeps_cons_not N _ dep rest st hc]
      refine ih st hg (fun d hd hdN => hchain d (List.mem_cons_of_mem _ hd) hdN)
        hcount
    | true =>
      rw [visitDeps_cons_mem N _ dep rest st hc]
      have hdN : dep ∈ N := (contains_iff_mem N dep).1 hc
      rcases IH dep st hdN hg (hchain dep (List.mem_cons_self _ _) hdN)
          hcount with ⟨st2, hok⟩ | ⟨n, herr, htg⟩
      · rw [hok]
        obtain ⟨p1, _⟩ := visit_ok_post N M fuel dep st st2 hdN hg hok
        have hvs : st2.visiting = st.visiting := p1.visSame
        rcases ih st2 p1.good
            (fun d hd hdN2 => hvs ▸ hchain d (List.mem_cons_of_mem _ hd) hdN2)
            (by rwa [hvs]) with ⟨st3, hok3⟩ | ⟨n, herr3, htg3⟩
        · exact Or.inl ⟨st3, hok3⟩
        · exact Or.inr ⟨n, herr3, htg3⟩
      · rw [herr]
        exact Or.inr ⟨n, rfl, htg⟩

theorem visit_total (N : List String) (M : List (String × List String)) :
    ∀ (fuel : Nat) (name : String) (st : SortState), name ∈ N →
      GoodState N M st → ChainTo N M st.visiting name →
      unvisitedCount N st.visiting < fuel →
      (∃ st', visit N M fuel name st = .ok st') ∨
      (∃ n, visit N M fuel name st = .error (.circularDependency n) ∧
        Relation.TransGen (depEdge N M) n n) := by
  intro fuel
  induction fuel with
  | zero =>
    intro name st _ _ _ hcount
    exact absurd hcount (Nat.not_lt_zero _)
  | succ fuel IH =>
    intro name st hname hg hchain hcount
    cases hvis : st.visiting.contains name with
    | true =>
      refine Or.inr ⟨name, visit_succ_visiting N M fuel name st hvis, ?_⟩
      exact chainTo_cycle hchain ((contains_iff_mem _ _).1 hvis)
    | false =>
      cases hvtd : st.visited.contains name with
      | true =>
        exact Or.inl ⟨st, visit_succ_visited N M fuel name st hvis hvtd⟩
      | false =>
        have hg1 := goodState_push hg hvis hvtd
        have hchain1 : ∀ d ∈ (mapGet M name).getD [], d ∈ N →
            ChainTo N M
              ({ st with visiting := setAdd st.visiting name } :
                SortState).visiting d := by
          intro d hd hdN
          show ChainTo N M (setAdd st.visiting name) d
          rw [setAdd_eq_append hvis]
          exact chainTo_snoc hchain ⟨hname, hdN, hd⟩
        have hcount1 :
            unvisitedCount N
              ({ st with visiting := setAdd st.visiting name } :
                SortState).visiting < fuel := by
          show unvisitedCount N (setAdd st.visiting name) < fuel
          rw [setAdd_eq_append hvis]
          have hlt := unvisitedCount_append_lt N st.visiting name hname hvis
          omega
        rcases visitDeps_total N M fuel IH ((mapGet M name).getD [])
            { st with visiting := setAdd st.visiting name } hg1 hchain1
            hcount1 with ⟨st2, hok⟩ | ⟨n, herr, htg⟩
        · refine Or.inl ⟨SortState.mk (st2.visiting.erase name)
            (setAdd st2.visited name) (st2.result ++ [name]), ?_⟩
          rw [visit_succ_main N M fuel name st hvis hvtd, hok]
        · refine Or.inr ⟨n, ?_, htg⟩
          rw [visit_succ_main N M fuel name st hvis hvtd, herr]

/-! The top-level loop over all addon names -/

theorem visitAll_cons_visited (N : List String)
    (M : List (String × List String)) (fuel : Nat) (name : String)
    (rest : List String) (st : SortState)
    (h : st.visited.contains name = true) :
    visitAll N M fuel (name :: rest) st = visitAll N M fuel rest st := by
  simp only [visitAll, h, if_true]

theorem visitAll_cons_not (N : List String)
    (M : List (String × List String)) (fuel : Nat) (name : String)
    (rest : List String) (st : SortState)
    (h : st.visited.contains name = false) :
    visitAll N M fuel (name :: rest) st =
      match visit N M fuel name st with
      | .error e => .error e
      | .ok st' => visitAll N M fuel rest st' := by
  simp only [visitAll, h, Bool.false_eq_true, if_false]

theorem visitAll_ok_post (N : List String) (M : List (String × List String))
    (fuel : Nat) :
    ∀ (names : List String) (st st' : SortState),
      (∀ x ∈ names, x ∈ N) → GoodState N M st →
      visitAll N M fuel names st = .ok st' →
      VisitPost N M st st' ∧ ∀ x ∈ names, x ∈ st'.result := by
  intro names
  induction names with
  | nil =>
    intro st st' _ hg hok
    simp only [visitAll] at hok
    injection hok with h
    subst h
    exact ⟨visitPost_refl hg, by simp⟩
  | cons nm rest ih =>
    intro st st' hsub hg hok
    cases hc : st.visited.contains nm with
    | true =>
      rw [visitAll_cons_visited N M fuel nm rest st hc] at hok
      obtain ⟨post, hdone⟩ := ih st st'
        (fun x hx => hsub x (List.mem_cons_of_mem _ hx)) hg hok
      refine ⟨post, ?_⟩
      intro x hx
      rcases List.mem_cons.1 hx with rfl | hx'
      · have hm : x ∈ st.visited := (contains_iff_mem _ _).1 hc
        rw [hg.visEq] at hm
        exact visitPost_mem post hm
      · exact hdone x hx'
    | false =>
      rw [visitAll_cons_not N M fuel nm rest st hc] at hok
      revert hok
      cases hv : visit N M fuel nm st with
      | error e => intro hok; cases hok
      | ok stMid =>
        intro hok
        obtain ⟨p1, hmem⟩ := visit_ok_post N M fuel nm st stMid
          (hsub nm (List.mem_cons_self _ _)) hg hv
        obtain ⟨p2, hdone⟩ := ih stMid st'
          (fun x hx => hsub x (List.mem_cons_of_mem _ hx)) p1.good hok
        refine ⟨visitPost_trans p1 p2, ?_⟩
        intro x hx
        rcases List.mem_cons.1 hx with rfl | hx'
        · exact visitPost_mem p2 hmem
        · exact hdone x hx'

theorem visitAll_total (N : List String) (M : List (String × List String))
    (fuel : Nat) :
    ∀ (names : List String) (st : SortState),
      (∀ x ∈ names, x ∈ N) → GoodState N M st → st.visiting = [] →
      unvisitedCount N [] < fuel →
      (∃ st', visitAll N M fuel names st = .ok st') ∨
      (∃ n, visitAll N M fuel names st = .error (.circularDependency n) ∧
        Relation.TransGen (depEdge N M) n n) := by
  intro names
  induction names with
  | nil =>
    intro st _ _ _ _
    exact Or.inl ⟨st, rfl⟩
  | cons nm rest ih =>
    intro st hsub hg hnil hcount
    cases hc : st.visited.contains nm with
    | true =>
      rw [visitAll_cons_visited N M fuel nm rest st hc]
      exact ih st (fun x hx => hsub x (List.mem_cons_of_mem _ hx)) hg hnil
        hcount
    | false =>
      rw [visitAll_cons_not N M fuel nm rest st hc]
      have hchain : ChainTo N M st.visiting nm := by
        rw [hnil]
        exact .nil nm
      have hcount' : unvisitedCount N st.visiting < fuel := by
        rwa [hnil]
      rcases visit_total N M fuel nm st (hsub nm (List.mem_cons_self _ _))
          hg hchain hcount' with ⟨stMid, hok⟩ | ⟨n, herr, htg⟩
      · rw [hok]
        obtain ⟨p1, _⟩ := visit_ok_post N M fuel nm st stMid
          (hsub nm (List.mem_cons_self _ _)) hg hok
        have hnil2 : stMid.visiting = [] := by
          rw [p1.visSame, hnil]
        exact ih stMid (fun x hx => hsub x (List.mem_cons_of_mem _ hx))
          p1.good hnil2 hcount
      · rw [herr]
        exact Or.inr ⟨n, rfl, htg⟩

/-! The resolver: soundness and totality assembled -/

theorem resolveDeploymentOrder_eq (addons : List AddonConfig)
    (dependencies : List AddonDependency) :
    resolveDeploymentOrder addons dependencies =
      match visitAll (addons.map (fun a => a.name))
          (buildDependencyMap addons dependencies)
          ((addons.map (fun a => a.name)).length + 1)
          (addons.map (fun a => a.name)) ⟨[], [], []⟩ with
      | .error e => .error e
      | .ok st => .ok st.result := rfl

theorem goodState_init (N : List String)
    (M : List (String × List String)) : GoodState N M ⟨[], [], []⟩ := by
  refine ⟨rfl, List.nodup_nil, ?_, ?_, ?_⟩
  · intro x hx
    simp at hx
  · intro a ha
    simp at ha
  · intro x hx
    simp at hx

theorem unvisitedCount_nil (N : List String) :
    unvisitedCount N [] = N.length := by
  unfold unvisitedCount
  simp

/-- Soundness: an `ok` order contains every addon name, only addon
names, has no duplicates, and respects every in-set dependency edge. -/
theorem resolve_ok_facts (addons : List AddonConfig)
    (dependencies : List AddonDependency) (order : List String)
    (hok : resolveDeploymentOrder addons dependencies = .ok order) :
    (∀ x ∈ addons.map (fun a => a.name), x ∈ order) ∧
    (∀ x ∈ order, x ∈ addons.map (fun a => a.name)) ∧
    order.Nodup ∧
    ResultClosed (addons.map (fun a => a.name))
      (buildDependencyMap addons dependencies) order := by
  rw [resolveDeploymentOrder_eq] at hok
  revert hok
  cases hva : visitAll (addons.map (fun a => a.name))
      (buildDependencyMap addons dependencies)
      ((addons.map (fun a => a.name)).length + 1)
      (addons.map (fun a => a.name)) ⟨[], [], []⟩ with
  | error e => intro hok; cases hok
  | ok st =>
    intro hok
    injection hok with h
    subst h
    obtain ⟨post, hall⟩ := visitAll_ok_post _ _ _ _ _ st
      (fun x hx => hx) (goodState_init _ _) hva
    exact ⟨hall, post.good.subN, post.good.nodup, post.good.closed⟩

/-- Totality: the resolver either returns an order or reports a
circular-dependency error whose addon really lies on a cycle. -/
theorem resolve_total (addons : List AddonConfig)
    (dependencies : List AddonDependency) :
    (∃ order, resolveDeploymentOrder addons dependencies = .ok order) ∨
    (∃ n, resolveDeploymentOrder addons dependencies =
        .error (.circularDependency n) ∧
      Relation.TransGen
        (depEdge (addons.map (fun a => a.name))
          (buildDependencyMap addons dependencies)) n n) := by
  rcases visitAll_total (addons.map (fun a => a.name))
      (buildDependencyMap addons dependencies)
      ((addons.map (fun a => a.name)).length + 1)
      (addons.map (fun a => a.name)) ⟨[], [], []⟩
      (fun x hx => hx) (goodState_init _ _) rfl
      (by rw [unvisitedCount_nil]; omega) with ⟨st, hok⟩ | ⟨n, herr, htg⟩
  · refine Or.inl ⟨st.result, ?_⟩
    rw [resolveDeploymentOrder_eq, hok]
  · refine Or.inr ⟨n, ?_, htg⟩
    rw [resolveDeploymentOrder_eq, herr]

/-- Every in-set edge goes strictly backwards in an `ok` order; hence an
`ok` order certifies acyclicity of the in-set dependency relation. -/
theorem resolve_ok_edge_lt (addons : List AddonConfig)
    (dependencies : List AddonDependency) (order : List String)
    (hok : resolveDeploymentOrder addons dependencies = .ok order)
    (a b : String)
    (hedge : depEdge (addons.map (fun x => x.name))
      (buildDependencyMap addons dependencies) a b) :
    List.indexOf b order < List.indexOf a order := by
  obtain ⟨hsup, _, _, hclosed⟩ := resolve_ok_facts addons dependencies order
    hok
  obtain ⟨haN, hbN, hdep⟩ := hedge
  exact (hclosed a (hsup a haN) b hdep hbN).2

theorem resolve_ok_acyclic (addons : List AddonConfig)
    (dependencies : List AddonDependency) (order : List String)
    (hok : resolveDeploymentOrder addons dependencies = .ok order) :
    ∀ x, ¬ Relation.TransGen
      (depEdge (addons.map (fun a => a.name))
        (buildDependencyMap addons dependencies)) x x := by
  intro x htg
  have hlt : ∀ a b, Relation.TransGen
      (depEdge (addons.map (fun a => a.name))
        (buildDependencyMap addons dependencies)) a b →
      List.indexOf b order < List.indexOf a order := by
    intro a b h
    induction h with
    | single h1 => exact resolve_ok_edge_lt addons dependencies order hok _ _ h1
    | tail _ h2 ih =>
      exact lt_trans (resolve_ok_edge_lt addons dependencies order hok _ _ h2)
        ih
  exact absurd (hlt x x htg) (lt_irrefl _)

/-! Validation facts feeding the resolver -/

theorem validateProps_ok_noDuplicates (props : AddonBuilderProps)
    (h : validateProps props = .ok ()) :
    findDuplicates (props.addons.map (fun a => a.name)) = [] := by
  by_contra hne
  have hpos : 0 < (findDuplicates (props.addons.map (fun a => a.name))).length :=
    List.length_pos.2 hne
  simp only [validateProps, gt_iff_lt, hpos, if_true] at h
  cases h

theorem findDuplicates_nil_nodup (names : List String)
    (h : findDuplicates names = []) : names.Nodup := by
  have hfilter : ∀ p ∈ names.enum, ¬ (names.indexOf p.2 ≠ p.1) := by
    intro p hp
    have hmap : (names.enum.filter
        (fun p => names.indexOf p.2 ≠ p.1)) = [] := by
      have := h
      unfold findDuplicates at this
      exact List.map_eq_nil.1 this
    have := List.filter_eq_nil.1 hmap p hp
    simpa using this
  have hidx : ∀ (i : Fin names.length),
      names.indexOf (names.get i) = i.1 := by
    intro i
    have hmem : (i.1, names.get i) ∈ names.enum := by
      rw [List.mem_enum_iff_get?]
      exact List.get?_eq_get i.2
    have := hfilter _ hmem
    simpa using this
  rw [List.nodup_iff_injective_get]
  intro a b hab
  have ha := hidx a
  have hb := hidx b
  rw [hab] at ha
  rw [ha] at hb
  exact Fin.ext hb

/-- C1: for every validated input whose in-set dependency relation is
acyclic, the resolver succeeds and the resulting deployment order is a
permutation of all addon names (enabled and disabled, each exactly once,
length equal to the number of addons), and every in-set dependency edge
`a depends on b` places `b` strictly before `a`. -/
theorem claim_C1 (props : AddonBuilderProps)
    (hval : validateProps props = .ok ())
    (hacyc : ∀ x, ¬ Relation.TransGen (propsEdge props) x x) :
    ∃ order, resolveDeploymentOrder props.addons props.dependencies =
        .ok order ∧
      order.Perm (props.addons.map (fun a => a.name)) ∧
      order.Nodup ∧
      order.length = props.addons.length ∧
      ∀ a b, propsEdge props a b →
        List.indexOf b order < List.indexOf a order := by
  have hnodup : (props.addons.map (fun a => a.name)).Nodup :=
    findDuplicates_nil_nodup _ (validateProps_ok_noDuplicates props hval)
  rcases resolve_total props.addons props.dependencies with
    ⟨order, hok⟩ | ⟨n, _, htg⟩
  · obtain ⟨hsup, hsub, hnd, _⟩ := resolve_ok_facts props.addons
      props.dependencies order hok
    have hperm : order.Perm (props.addons.map (fun a => a.name)) :=
      (hnd.subperm hsub).antisymm (hnodup.subperm hsup)
    refine ⟨order, hok, hperm, hnd, ?_, ?_⟩
    · rw [hperm.length_eq, List.length_map]
    · intro a b hedge
      exact resolve_ok_edge_lt props.addons props.dependencies order hok a b
        hedge
  · exact absurd htg (hacyc n)

/-- C2: for every validated input whose in-set dependency relation has a
cycle, construction fails with a circular-dependency error naming an
addon that really lies on a cycle, and no cloud side effect is
materialized. -/
theorem claim_C2 (props : AddonBuilderProps)
    (hval : validateProps props = .ok ())
    (hcyc : ∃ n, Relation.TransGen (propsEdge props) n n) :
    ∃ n, construct props = .error (.circularDependency n) ∧
      Relation.TransGen (propsEdge props) n n ∧
      constructSideEffects props = emptyAcc := by
  obtain ⟨n0, htg0⟩ := hcyc
  rcases resolve_total props.addons props.dependencies with
    ⟨order, hok⟩ | ⟨n, herr, htg⟩
  · exact absurd htg0
      (resolve_ok_acyclic props.addons props.dependencies order hok n0)
  · refine ⟨n, ?_, htg, ?_⟩
    · unfold construct
      rw [hval, herr]
    · unfold constructSideEffects
      rw [hval, herr]

/-- The spec example `[cert-manager, ingress-nginx(dependsOn:
cert-manager), prometheus]` with the external entry of the repo test. -/
def c1Props : AddonBuilderProps :=
  ⟨⟨"https://oidc.example", "arn:oidc-provider"⟩, "test", "basic-cloud",
   [{ name := "cert-manager", enabled := true, deploymentMethod := .cdkHelm,
      helmConfig := some { chart := "cert-manager" } },
    { name := "ingress-nginx", enabled := true, deploymentMethod := .cdkHelm,
      helmConfig := some { chart := "ingress-nginx" },
      dependsOn := some ["cert-manager"] },
    { name := "prometheus", enabled := true, deploymentMethod := .cdkHelm,
      helmConfig := some { chart := "prometheus" } }],
   [⟨"ingress-nginx", ["cert-manager"]⟩]⟩

/-- C1 witness: the spec's three-addon example is validated and acyclic,
so `claim_C1` applies to it. -/
theorem witness_C1 :
    validateProps c1Props = .ok () ∧
    (∀ x, ¬ Relation.TransGen (propsEdge c1Props) x x) ∧
    ∃ order, resolveDeploymentOrder c1Props.addons c1Props.dependencies =
        .ok order ∧
      order.Perm (c1Props.addons.map (fun a => a.name)) ∧
      order.Nodup ∧
      order.length = c1Props.addons.length ∧
      ∀ a b, propsEdge c1Props a b →
        List.indexOf b order < List.indexOf a order := by
  have hval : validateProps c1Props = .ok () := rfl
  have hM : buildDependencyMap c1Props.addons c1Props.dependencies =
      [("ingress-nginx", ["cert-manager", "cert-manager"])] := rfl
  have hR : ∀ a b, propsEdge c1Props a b →
      a = "ingress-nginx" ∧ b = "cert-manager" := by
    intro a b hedge
    obtain ⟨_, _, hdep⟩ := hedge
    rw [hM] at hdep
    unfold depsOf mapGet jsGet at hdep
    by_cases ha : "ingress-nginx" = a
    · subst ha
      simp only [List.find?_cons, beq_self_eq_true, Option.map_some',
        Option.getD_some] at hdep
      have hb : b = "cert-manager" := by simpa using hdep
      exact ⟨rfl, hb⟩
    · have hne : ("ingress-nginx" == a) = false := by
        simp [beq_iff_eq, ha]
      simp [List.find?_cons, hne] at hdep
  have hacyc : ∀ x, ¬ Relation.TransGen (propsEdge c1Props) x x := by
    intro x htg
    obtain ⟨c, hxc, hrt⟩ := Relation.TransGen.head'_iff.1 htg
    obtain ⟨hxi, hcc⟩ := hR x c hxc
    rcases Relation.ReflTransGen.cases_head hrt with heq | ⟨d, hcd, _⟩
    · have : ("cert-manager" : String) = "ingress-nginx" := by
        rw [← hcc, heq, hxi]
      exact absurd this (by decide)
    · obtain ⟨hci, _⟩ := hR c d hcd
      have : ("cert-manager" : String) = "ingress-nginx" := by
        rw [← hcc, hci]
      exact absurd this (by decide)
  exact ⟨hval, hacyc, claim_C1 c1Props hval hacyc⟩

/-- The repo test input for cycle detection: `addon-a` and `addon-b`
depending on each other through external entries. -/
def c2Props : AddonBuilderProps :=
  ⟨⟨"https://oidc.example", "arn:oidc-provider"⟩, "test", "basic-cloud",
   [{ name := "addon-a", enabled := true, deploymentMethod := .cdkHelm,
      helmConfig := some { chart := "chart-a" } },
    { name := "addon-b", enabled := true, deploymentMethod := .cdkHelm,
      helmConfig := some { chart := "chart-b" } }],
   [⟨"addon-a", ["addon-b"]⟩, ⟨"addon-b", ["addon-a"]⟩]⟩

/-- C2 witness: the two-addon mutual dependency is validated yet cyclic,
so `claim_C2` applies to it. -/
theorem witness_C2 :
    validateProps c2Props = .ok () ∧
    (∃ n, Relation.TransGen (propsEdge c2Props) n n) ∧
    ∃ n, construct c2Props = .error (.circularDependency n) ∧
      Relation.TransGen (propsEdge c2Props) n n ∧
      constructSideEffects c2Props = emptyAcc := by
  have hval : validateProps c2Props = .ok () := rfl
  have he1 : propsEdge c2Props "addon-a" "addon-b" := by
    unfold propsEdge depEdge
    refine ⟨by decide, by decide, by decide⟩
  have he2 : propsEdge c2Props "addon-b" "addon-a" := by
    unfold propsEdge depEdge
    refine ⟨by decide, by decide, by decide⟩
  have hcyc : ∃ n, Relation.TransGen (propsEdge c2Props) n n :=
    ⟨"addon-a", Relation.TransGen.head he1 (Relation.TransGen.single he2)⟩
  exact ⟨hval, hcyc, claim_C2 c2Props hval hcyc⟩

/-! C8: how external and inline dependency declarations merge -/

/-- The `dependsOn` list of the last external entry naming `nm`
(later `Map.set` calls overwrite earlier ones). -/
def lastExternal (dependencies : List AddonDependency) (nm : String) :
    Option (List String) :=
  (dependencies.reverse.find? (fun d => d.addon == nm)).map
    (fun d => d.dependsOn)

/-- The inline `dependsOn` list of the addon named `nm`, when present
and nonempty. -/
def inlineDeps (addons : List AddonConfig) (nm : String) :
    Option (List String) :=
  match addons.find? (fun a => a.name == nm) with
  | some a =>
    match a.dependsOn with
    | some ds => if ds.length > 0 then some ds else none
    | none => none
  | none => none

theorem extFold_get (dependencies : List AddonDependency) (nm : String) :
    ∀ m0, mapGet (dependencies.foldl
        (fun m dep => mapSet m dep.addon dep.dependsOn) m0) nm =
      match lastExternal dependencies nm with
      | some l => some l
      | none => mapGet m0 nm := by
  induction dependencies with
  | nil => intro m0; simp [lastExternal]
  | cons dep rest ih =>
    intro m0
    rw [List.foldl_cons, ih (mapSet m0 dep.addon dep.dependsOn)]
    unfold lastExternal
    rw [List.reverse_cons, List.find?_append]
    cases hfind : rest.reverse.find? (fun d => d.addon == nm) with
    | some d => simp [Option.or]
    | none =>
      cases hd : (dep.addon == nm) with
      | true =>
        have heq : dep.addon = nm := beq_iff_eq.1 hd
        subst heq
        simp [Option.or, List.find?_cons, mapGet_mapSet_self]
      | false =>
        have hne : ¬ dep.addon = nm := by
          intro h
          rw [h] at hd
          simp at hd
        rw [mapGet_mapSet_ne _ _ _ _ hne]
        simp [Option.or, List.find?_cons, hd]

theorem inlineFold_untouched (nm : String) :
    ∀ (addons : List AddonConfig) (m : List (String × List String)),
      nm ∉ addons.map (fun a => a.name) →
      mapGet (addons.foldl inlineStep m) nm = mapGet m nm := by
  intro addons
  induction addons with
  | nil => intro m _; rfl
  | cons a rest ih =>
    intro m hnm
    rw [List.foldl_cons]
    have hnm1 : nm ∉ rest.map (fun a => a.name) := by
      intro h
      exact hnm (by simp [h])
    have hane : ¬ a.name = nm := by
      intro h
      exact hnm (by simp [h])
    rw [ih _ hnm1]
    unfold inlineStep
    cases hds : a.dependsOn with
    | none => rfl
    | some ds =>
      by_cases hlen : ds.length > 0
      · simp only [hlen, if_true]
        exact mapGet_mapSet_ne _ _ _ _ hane
      · simp only [hlen, if_false]

theorem inlineFold_get (nm : String) :
    ∀ (addons : List AddonConfig) (m : List (String × List String)),
      (addons.map (fun a => a.name)).Nodup →
      mapGet (addons.foldl inlineStep m) nm =
        match inlineDeps addons nm with
        | some ds => some ((mapGet m nm).getD [] ++ ds)
        | none => mapGet m nm := by
  intro addons
  induction addons with
  | nil => intro m _; simp [inlineDeps]
  | cons a rest ih =>
    intro m hnodup
    rw [List.map_cons] at hnodup
    obtain ⟨hnotin, hnd⟩ := List.nodup_cons.1 hnodup
    rw [List.foldl_cons]
    cases ha : (a.name == nm) with
    | true =>
      have hanm : a.name = nm := beq_iff_eq.1 ha
      have hrest : nm ∉ rest.map (fun x => x.name) := by
        rw [← hanm]
        exact hnotin
      rw [inlineFold_untouched nm rest _ hrest]
      unfold inlineDeps
      simp only [List.find?_cons, ha]
      unfold inlineStep
      cases hds : a.dependsOn with
      | none => rfl
      | some ds =>
        by_cases hlen : ds.length > 0
        · simp only [hlen, if_true]
          rw [hanm, mapGet_mapSet_self]
        · simp only [hlen, if_false]
    | false =>
      have hane : ¬ a.name = nm := by
        intro h
        rw [h] at ha
        simp at ha
      rw [ih (inlineStep m a) hnd]
      have hget : mapGet (inlineStep m a) nm = mapGet m nm := by
        unfold inlineStep
        cases hds : a.dependsOn with
        | none => rfl
        | some ds =>
          by_cases hlen : ds.length > 0
          · simp only [hlen, if_true]
            exact mapGet_mapSet_ne _ _ _ _ hane
          · simp only [hlen, if_false]
      rw [hget]
      unfold inlineDeps
      simp only [List.find?_cons, ha]

/-- What the topological sort consumes per addon name: last external
entry overwrites, inline appends. -/
theorem buildDependencyMap_get (addons : List AddonConfig)
    (dependencies : List AddonDependency) (nm : String)
    (hnodup : (addons.map (fun a => a.name)).Nodup) :
    mapGet (buildDependencyMap addons dependencies) nm =
      match lastExternal dependencies nm, inlineDeps addons nm with
      | none, none => none
      | some l, none => some l
      | none, some ds => some ds
      | some l, some ds => some (l ++ ds) := by
  unfold buildDependencyMap
  rw [inlineFold_get nm addons _ hnodup]
  rw [extFold_get dependencies nm []]
  cases hext : lastExternal dependencies nm with
  | some l =>
    cases hinl : inlineDeps addons nm with
    | some ds => simp
    | none => simp
  | none =>
    cases hinl : inlineDeps addons nm with
    | some ds => simp [mapGet, jsGet]
    | none => simp [mapGet, jsGet]

/-- C8 (amended): for every addon name, the dependency list consumed by
the topological sort is the `dependsOn` list of the LAST external
`AddonDependency` entry naming that addon — earlier external entries for
the same addon are overwritten, not unioned — with the addon's inline
`dependsOn` list appended (external-last + inline union, duplicates
tolerated); when only one of the two sources is present, that one alone
takes effect. -/
theorem claim_C8 (addons : List AddonConfig)
    (dependencies : List AddonDependency) (nm : String)
    (hnodup : (addons.map (fun a => a.name)).Nodup) :
    mapGet (buildDependencyMap addons dependencies) nm =
      match lastExternal dependencies nm, inlineDeps addons nm with
      | none, none => none
      | some l, none => some l
      | none, some ds => some ds
      | some l, some ds => some (l ++ ds) :=
  buildDependencyMap_get addons dependencies nm hnodup

/-- Input with two external entries naming the same addon `a`. -/
def c8Addons : List AddonConfig :=
  [{ name := "a", enabled := true, deploymentMethod := .helmCli },
   { name := "b", enabled := true, deploymentMethod := .helmCli },
   { name := "c", enabled := true, deploymentMethod := .helmCli }]

def c8Deps : List AddonDependency :=
  [⟨"a", ["b"]⟩, ⟨"a", ["c"]⟩]

/-- C8 counterexample: with external entries `{a dependsOn [b]}` and
`{a dependsOn [c]}`, the consumed dependency list of `a` is `[c]` alone
— the first entry's `b` is NOT unioned in — and the resolved order
places `a` before `b`, violating the first entry. -/
theorem counterexample_C8 :
    mapGet (buildDependencyMap c8Addons c8Deps) "a" = some ["c"] ∧
    "b" ∉ (mapGet (buildDependencyMap c8Addons c8Deps) "a").getD [] ∧
    resolveDeploymentOrder c8Addons c8Deps = .ok ["c", "a", "b"] := by
  refine ⟨rfl, by decide, rfl⟩

/-- C8 amended-claim witness: at the counterexample input plus an inline
list on `a`, the consumed list is last-external ++ inline. -/
theorem witness_C8 :
    ((c8Addons.map (fun a => a.name)).Nodup) ∧
    mapGet (buildDependencyMap c8Addons c8Deps) "a" =
      match lastExternal c8Deps "a", inlineDeps c8Addons "a" with
      | none, none => none
      | some l, none => some l
      | none, some ds => some ds
      | some l, some ds => some (l ++ ds) := by
  refine ⟨by decide, claim_C8 c8Addons c8Deps "a" (by decide)⟩

/-! C9: referential integrity is asymmetric -/

theorem validateDepRefs_ok (addons : List AddonConfig) (owner : String) :
    ∀ refs, validateDepRefs addons owner refs = .ok () →
      ∀ d ∈ refs, addons.any (fun a => a.name == d) = true := by
  intro refs
  induction refs with
  | nil => intro _ d hd; simp at hd
  | cons r rest ih =>
    intro hok d hd
    unfold validateDepRefs at hok
    cases hc : addons.any (fun a => a.name == r) with
    | false =>
      rw [hc] at hok
      simp at hok
    | true =>
      rw [hc] at hok
      simp only [if_true] at hok
      rcases List.mem_cons.1 hd with rfl | hd'
      · exact hc
      · exact ih hok d hd'

theorem validateDepRefs_err_shape (addons : List AddonConfig)
    (owner : String) :
    ∀ refs e, validateDepRefs addons owner refs = .error e →
      ∃ d, e = .missingDependencyRef owner d ∧
        addons.any (fun a => a.name == d) = false := by
  intro refs
  induction refs with
  | nil => intro e he; cases he
  | cons r rest ih =>
    intro e he
    unfold validateDepRefs at he
    cases hc : addons.any (fun a => a.name == r) with
    | false =>
      rw [hc] at he
      simp only [Bool.false_eq_true, if_false] at he
      injection he with h
      exact ⟨r, h.symm, hc⟩
    | true =>
      rw [hc] at he
      simp only [if_true] at he
      exact ih e he

theorem validateDependency_ok (addons : List AddonConfig)
    (dep : AddonDependency)
    (hok : validateDependency addons dep = .ok ()) :
    addons.any (fun a => a.name == dep.addon) = true ∧
    ∀ d ∈ dep.dependsOn, addons.any (fun a => a.name == d) = true := by
  unfold validateDependency at hok
  cases hc : addons.any (fun a => a.name == dep.addon) with
  | false =>
    rw [hc] at hok
    simp at hok
  | true =>
    rw [hc] at hok
    simp only [if_true] at hok
    exact ⟨rfl, validateDepRefs_ok addons dep.addon dep.dependsOn hok⟩

theorem validateDependency_err_shape (addons : List AddonConfig)
    (dep : AddonDependency) (e : AdmiralError)
    (he : validateDependency addons dep = .error e) :
    (e = .missingDependencyAddon dep.addon ∧
      addons.any (fun a => a.name == dep.addon) = false) ∨
    (∃ d, e = .missingDependencyRef dep.addon d ∧
      addons.any (fun a => a.name == d) = false) := by
  unfold validateDependency at he
  cases hc : addons.any (fun a => a.name == dep.addon) with
  | false =>
    rw [hc] at he
    simp only [Bool.false_eq_true, if_false] at he
    injection he with h
    exact Or.inl ⟨h.symm, rfl⟩
  | true =>
    rw [hc] at he
    simp only [if_true] at he
    exact Or.inr (validateDepRefs_err_shape addons dep.addon dep.dependsOn e
      he)

theorem validateDependencies_ok (addons : List AddonConfig) :
    ∀ deps, validateDependencies addons deps = .ok () →
      ∀ dep ∈ deps, validateDependency addons dep = .ok () := by
  intro deps
  induction deps with
  | nil => intro _ dep hd; simp at hd
  | cons d rest ih =>
    intro hok dep hd
    unfold validateDependencies at hok
    cases hv : validateDependency addons d with
    | error e => rw [hv] at hok; cases hok
    | ok u =>
      rw [hv] at hok
      rcases List.mem_cons.1 hd with rfl | hd'
      · cases u
        exact hv
      · exact ih hok dep hd'

theorem validateDependencies_err_shape (addons : List AddonConfig) :
    ∀ deps e, validateDependencies addons deps = .error e →
      ∃ dep ∈ deps,
        (e = .missingDependencyAddon dep.addon ∧
          addons.any (fun a => a.name == dep.addon) = false) ∨
        (∃ d, e = .missingDependencyRef dep.addon d ∧
          addons.any (fun a => a.name == d) = false) := by
  intro deps
  induction deps with
  | nil => intro e he; cases he
  | cons d rest ih =>
    intro e he
    unfold validateDependencies at he
    cases hv : validateDependency addons d with
    | error e1 =>
      rw [hv] at he
      injection he with h
      subst h
      exact ⟨d, List.mem_cons_self _ _,
        validateDependency_err_shape addons d _ hv⟩
    | ok u =>
      rw [hv] at he
      obtain ⟨dep, hmem, hsh⟩ := ih e he
      exact ⟨dep, List.mem_cons_of_mem _ hmem, hsh⟩

theorem validateProps_eq_deps (props : AddonBuilderProps)
    (hdup : findDuplicates (props.addons.map (fun a => a.name)) = [])
    (hadd : validateAddons props.addons 0 = .ok ()) :
    validateProps props =
      validateDependencies props.addons props.dependencies := by
  simp only [validateProps, hdup, List.length_nil, gt_iff_lt,
    Nat.lt_irrefl, if_false, hadd]

/-! Inline references to names outside the addon set are inert -/

theorem visitDeps_congr_fn (N : List String)
    (f g : String → SortState → Except AdmiralError SortState)
    (h : ∀ d s, f d s = g d s) :
    ∀ (deps : List String) (st : SortState),
      visitDeps N f deps st = visitDeps N g deps st := by
  intro deps
  induction deps with
  | nil => intro st; rfl
  | cons dep rest ih =>
    intro st
    cases hc : N.contains dep with
    | false =>
      rw [visitDeps_cons_not N f dep rest st hc,
        visitDeps_cons_not N g dep rest st hc]
      exact ih st
    | true =>
      rw [visitDeps_cons_mem N f dep rest st hc,
        visitDeps_cons_mem N g dep rest st hc, h dep st]
      cases g dep st with
      | error e => rfl
      | ok st2 => exact ih st2

/-- The dependency loop only looks at dependencies that are names of the
addon set: out-of-set entries are skipped without any effect. -/
theorem visitDeps_filter (N : List String)
    (f : String → SortState → Except AdmiralError SortState) :
    ∀ (deps : List String) (st : SortState),
      visitDeps N f deps st =
        visitDeps N f (deps.filter (fun d => N.contains d)) st := by
  intro deps
  induction deps with
  | nil => intro st; rfl
  | cons dep rest ih =>
    intro st
    cases hc : N.contains dep with
    | false =>
      rw [visitDeps_cons_not N f dep rest st hc]
      simp only [List.filter_cons, hc, Bool.false_eq_true, if_false]
      exact ih st
    | true =>
      rw [visitDeps_cons_mem N f dep rest st hc]
      simp only [List.filter_cons, hc, if_true]
      rw [visitDeps_cons_mem N f dep _ st hc]
      cases f dep st with
      | error e => rfl
      | ok st2 => exact ih st2

theorem visit_map_congr (N : List String)
    (M M' : List (String × List String))
    (hM : ∀ nm, ((mapGet M nm).getD []).filter (fun d => N.contains d) =
      ((mapGet M' nm).getD []).filter (fun d => N.contains d)) :
    ∀ (fuel : Nat) (nm : String) (st : SortState),
      visit N M fuel nm st = visit N M' fuel nm st := by
  intro fuel
  induction fuel with
  | zero => intro nm st; rfl
  | succ fuel IH =>
    intro nm st
    cases hvis : st.visiting.contains nm with
    | true =>
      rw [visit_succ_visiting N M fuel nm st hvis,
        visit_succ_visiting N M' fuel nm st hvis]
    | false =>
      cases hvtd : st.visited.contains nm with
      | true =>
        rw [visit_succ_visited N M fuel nm st hvis hvtd,
          visit_succ_visited N M' fuel nm st hvis hvtd]
      | false =>
        rw [visit_succ_main N M fuel nm st hvis hvtd,
          visit_succ_main N M' fuel nm st hvis hvtd]
        have hvd : visitDeps N (fun d s => visit N M fuel d s)
            ((mapGet M nm).getD [])
            { st with visiting := setAdd st.visiting nm } =
          visitDeps N (fun d s => visit N M' fuel d s)
            ((mapGet M' nm).getD [])
            { st with visiting := setAdd st.visiting nm } := by
          calc visitDeps N (fun d s => visit N M fuel d s)
                ((mapGet M nm).getD [])
                { st with visiting := setAdd st.visiting nm } =
              visitDeps N (fun d s => visit N M' fuel d s)
                ((mapGet M nm).getD [])
                { st with visiting := setAdd st.visiting nm } :=
            visitDeps_congr_fn N _ _ (fun d s => IH d s) _ _
            _ = visitDeps N (fun d s => visit N M' fuel d s)
                (((mapGet M nm).getD []).filter (fun d => N.contains d))
                { st with visiting := setAdd st.visiting nm } :=
            visitDeps_filter N _ _ _
            _ = visitDeps N (fun d s => visit N M' fuel d s)
                (((mapGet M' nm).getD []).filter (fun d => N.contains d))
                { st with visiting := setAdd st.visiting nm } := by
              rw [hM nm]
            _ = visitDeps N (fun d s => visit N M' fuel d s)
                ((mapGet M' nm).getD [])
                { st with visiting := setAdd st.visiting nm } :=
            (visitDeps_filter N _ _ _).symm
        rw [hvd]

theorem visitAll_map_congr (N : List String)
    (M M' : List (String × List String)) (fuel : Nat)
    (hM : ∀ nm, ((mapGet M nm).getD []).filter (fun d => N.contains d) =
      ((mapGet M' nm).getD []).filter (fun d => N.contains d)) :
    ∀ (names : List String) (st : SortState),
      visitAll N M fuel names st = visitAll N M' fuel names st := by
  intro names
  induction names with
  | nil => intro st; rfl
  | cons nm rest ih =>
    intro st
    cases hc : st.visited.contains nm with
    | true =>
      rw [visitAll_cons_visited N M fuel nm rest st hc,
        visitAll_cons_visited N M' fuel nm rest st hc]
      exact ih st
    | false =>
      rw [visitAll_cons_not N M fuel nm rest st hc,
        visitAll_cons_not N M' fuel nm rest st hc,
        visit_map_congr N M M' hM fuel nm st]
      cases visit N M' fuel nm st with
      | error e => rfl
      | ok st2 => exact ih st2

/-- The same addon list with every inline `dependsOn` restricted to
names of the addon set (the references that are outside the set
removed). -/
def stripInline (addons : List AddonConfig) : List AddonConfig :=
  addons.map (fun a =>
    { a with
        dependsOn := a.dependsOn.map (fun ds => ds.filter
          (fun d => (addons.map (fun x => x.name)).contains d)) })

theorem stripInline_names (addons : List AddonConfig) :
    (stripInline addons).map (fun a => a.name) =
      addons.map (fun a => a.name) := by
  unfold stripInline
  rw [List.map_map]
  rfl

theorem inlineDeps_mapStrip (q : String → Bool) :
    ∀ (addons : List AddonConfig) (nm : String),
      inlineDeps (addons.map (fun a =>
        { a with
            dependsOn := a.dependsOn.map (fun ds => ds.filter q) })) nm =
        match addons.find? (fun a => a.name == nm) with
        | some a =>
          match a.dependsOn with
          | some ds =>
            if (ds.filter q).length > 0 then some (ds.filter q) else none
          | none => none
        | none => none := by
  intro addons
  induction addons with
  | nil => intro nm; rfl
  | cons a rest ih =>
    intro nm
    rw [List.map_cons]
    unfold inlineDeps
    rw [List.find?_cons, List.find?_cons]
    dsimp only
    cases hb : (a.name == nm) with
    | true =>
      simp only [hb, if_true]
      cases hds : a.dependsOn with
      | none => rfl
      | some ds => rfl
    | false =>
      simp only [hb, Bool.false_eq_true, if_false]
      have hr := ih nm
      unfold inlineDeps at hr
      exact hr

theorem filter_idem (q : String → Bool) (l : List String) :
    (l.filter q).filter q = l.filter q := by
  induction l with
  | nil => rfl
  | cons a t ih =>
    cases hq : q a with
    | true => simp [List.filter_cons, hq, ih]
    | false => simp [List.filter_cons, hq, ih]

theorem bdm_strip_filter (addons : List AddonConfig)
    (deps : List AddonDependency) (nm : String)
    (hnodup : (addons.map (fun a => a.name)).Nodup) :
    ((mapGet (buildDependencyMap (stripInline addons) deps) nm).getD
        []).filter (fun d => (addons.map (fun x => x.name)).contains d) =
      ((mapGet (buildDependencyMap addons deps) nm).getD []).filter
        (fun d => (addons.map (fun x => x.name)).contains d) := by
  have hnodup2 : ((stripInline addons).map (fun a => a.name)).Nodup := by
    rw [stripInline_names]
    exact hnodup
  rw [buildDependencyMap_get addons deps nm hnodup,
    buildDependencyMap_get (stripInline addons) deps nm hnodup2]
  have hinl : inlineDeps (stripInline addons) nm =
      match addons.find? (fun a => a.name == nm) with
      | some a =>
        match a.dependsOn with
        | some ds =>
          if (ds.filter
              (fun d => (addons.map (fun x => x.name)).contains d)).length
              > 0
          then some (ds.filter
            (fun d => (addons.map (fun x => x.name)).contains d))
          else none
        | none => none
      | none => none := by
    unfold stripInline
    exact inlineDeps_mapStrip
      (fun d => (addons.map (fun x => x.name)).contains d) addons nm
  rw [hinl]
  unfold inlineDeps
  cases hf : addons.find? (fun a => a.name == nm) with
  | none => rfl
  | some a =>
    dsimp only
    cases hds : a.dependsOn with
    | none => rfl
    | some ds =>
      by_cases hlen : ds.length > 0
      · simp only [hlen, if_true]
        by_cases hflen : (ds.filter
            (fun d => (addons.map (fun x => x.name)).contains d)).length > 0
        · simp only [hflen, if_true]
          cases hext : lastExternal deps nm with
          | some l =>
            simp only [Option.getD_some]
            rw [List.filter_append, List.filter_append, filter_idem]
          | none =>
            simp only [Option.getD_some]
            exact filter_idem _ ds
        · simp only [hflen, if_false]
          have hemp : ds.filter
              (fun d => (addons.map (fun x => x.name)).contains d) = [] := by
            cases hfe : ds.filter
                (fun d => (addons.map (fun x => x.name)).contains d) with
            | nil => rfl
            | cons x t =>
              rw [hfe] at hflen
              simp at hflen
          cases hext : lastExternal deps nm with
          | some l =>
            simp only [Option.getD_some]
            rw [List.filter_append, hemp, List.append_nil]
          | none =>
            simp only [Option.getD_none, Option.getD_some, List.filter_nil]
            exact hemp.symm
      · have hde : ds = [] := List.length_eq_zero.1 (by omega)
        subst hde
        simp only [List.filter_nil, List.length_nil, gt_iff_lt,
          Nat.lt_irrefl, if_false]

/-- Out-of-set inline references have no effect on order resolution:
the resolver behaves identically on the stripped addon list. -/
theorem resolve_strip (addons : List AddonConfig)
    (deps : List AddonDependency)
    (hnodup : (addons.map (fun a => a.name)).Nodup) :
    resolveDeploymentOrder addons deps =
      resolveDeploymentOrder (stripInline addons) deps := by
  rw [resolveDeploymentOrder_eq, resolveDeploymentOrder_eq,
    stripInline_names]
  rw [visitAll_map_congr (addons.map (fun a => a.name))
    (buildDependencyMap addons deps)
    (buildDependencyMap (stripInline addons) deps)
    ((addons.map (fun a => a.name)).length + 1)
    (fun nm => (bdm_strip_filter addons deps nm hnodup).symm)
    (addons.map (fun a => a.name)) ⟨[], [], []⟩]

/-- C9: referential integrity is asymmetric.  (1) When, after the
duplicate and structural checks pass, some explicit `AddonDependency`
entry names an addon absent from the set or lists a `dependsOn` name
absent from the set, construction fails with an error that carries the
dependent and the missing reference.  (2) Inline `dependsOn` names that
are outside the addon set are silently ignored by order resolution:
stripping them changes nothing and never raises an error. -/
theorem claim_C9 :
    (∀ (props : AddonBuilderProps),
      findDuplicates (props.addons.map (fun a => a.name)) = [] →
      validateAddons props.addons 0 = .ok () →
      (∃ dep ∈ props.dependencies,
        props.addons.any (fun a => a.name == dep.addon) = false ∨
        ∃ d ∈ dep.dependsOn,
          props.addons.any (fun a => a.name == d) = false) →
      ∃ e, construct props = .error e ∧
        ((∃ nm, e = .missingDependencyAddon nm ∧
            props.addons.any (fun a => a.name == nm) = false) ∨
         (∃ owner d, e = .missingDependencyRef owner d ∧
            props.addons.any (fun a => a.name == d) = false))) ∧
    (∀ (addons : List AddonConfig) (deps : List AddonDependency),
      (addons.map (fun a => a.name)).Nodup →
      resolveDeploymentOrder addons deps =
        resolveDeploymentOrder (stripInline addons) deps) := by
  constructor
  · intro props hdup hadd hviol
    cases hv : validateDependencies props.addons props.dependencies with
    | ok u =>
      exfalso
      obtain ⟨dep, hmem, hbad⟩ := hviol
      have hdok := validateDependencies_ok props.addons props.dependencies
        hv dep hmem
      obtain ⟨haddon, hrefs⟩ := validateDependency_ok props.addons dep hdok
      rcases hbad with hbad | ⟨d, hdmem, hbad⟩
      · rw [haddon] at hbad
        cases hbad
      · have := hrefs d hdmem
        rw [this] at hbad
        cases hbad
    | error e =>
      have hvp : validateProps props = .error e := by
        rw [validateProps_eq_deps props hdup hadd]
        exact hv
      refine ⟨e, by unfold construct; rw [hvp], ?_⟩
      obtain ⟨dep, _, hsh⟩ := validateDependencies_err_shape props.addons
        props.dependencies e hv
      rcases hsh with ⟨he, hany⟩ | ⟨d, he, hany⟩
      · exact Or.inl ⟨dep.addon, he, hany⟩
      · exact Or.inr ⟨dep.addon, d, he, hany⟩
  · intro addons deps hnodup
    exact resolve_strip addons deps hnodup

/-- Inputs for the C9 witness: the repo test `should throw error for
non-existent dependency`, and a singleton addon whose inline
`dependsOn` references a name outside the set. -/
def c9aProps : AddonBuilderProps :=
  ⟨⟨"https://oidc.example", "arn:oidc-provider"⟩, "test", "basic-cloud",
   [{ name := "addon-a", enabled := true, deploymentMethod := .cdkHelm,
      helmConfig := some { chart := "chart-a" } }],
   [⟨"addon-a", ["non-existent-addon"]⟩]⟩

def c9bAddons : List AddonConfig :=
  [{ name := "alone", enabled := true, deploymentMethod := .helmCli,
     dependsOn := some ["addon-outside-the-batch"] }]

/-- C9 witness: `claim_C9` applied to both concrete inputs. -/
theorem witness_C9 :
    (∃ e, construct c9aProps = .error e ∧
      ((∃ nm, e = .missingDependencyAddon nm ∧
          c9aProps.addons.any (fun a => a.name == nm) = false) ∨
       (∃ owner d, e = .missingDependencyRef owner d ∧
          c9aProps.addons.any (fun a => a.name == d) = false))) ∧
    resolveDeploymentOrder c9bAddons [] =
      resolveDeploymentOrder (stripInline c9bAddons) [] := by
  constructor
  · refine claim_C9.1 c9aProps rfl rfl ?_
    refine ⟨⟨"addon-a", ["non-existent-addon"]⟩, by simp [c9aProps], ?_⟩
    exact Or.inr ⟨"non-existent-addon", by simp, by decide⟩
  · exact claim_C9.2 c9bAddons [] (by decide)

/-! C7: service-account roles and the query surface -/

/-- The role the constructor creates for the addon named `nm`, when that
addon is enabled and carries a serviceAccount block. -/
def saRoleForName (props : AddonBuilderProps) (nm : String) : Option Role :=
  match props.addons.find? (fun a => a.name == nm) with
  | some cfg =>
    if cfg.enabled ∧ cfg.serviceAccount.isSome then
      some (createServiceAccountRole props.cluster cfg props.environment)
    else none
  | none => none

theorem find?_name_of_mem (addons : List AddonConfig) (cfg : AddonConfig)
    (hnodup : (addons.map (fun a => a.name)).Nodup) (hmem : cfg ∈ addons) :
    addons.find? (fun a => a.name == cfg.name) = some cfg := by
  induction addons with
  | nil => simp at hmem
  | cons a rest ih =>
    rw [List.map_cons] at hnodup
    obtain ⟨hnotin, hnd⟩ := List.nodup_cons.1 hnodup
    rcases List.mem_cons.1 hmem with rfl | hmem'
    · rw [List.find?_cons]
      simp
    · have hne : (a.name == cfg.name) = false := by
        have : cfg.name ∈ rest.map (fun a => a.name) :=
          List.mem_map.2 ⟨cfg, hmem', rfl⟩
        have hne' : ¬ a.name = cfg.name := fun h => hnotin (h ▸ this)
        simp [beq_iff_eq, hne']
      rw [List.find?_cons, hne]
      exact ih hnd hmem'

theorem deployStep_serviceAccounts (props : AddonBuilderProps)
    (acc : DeployAcc) (nm : String) :
    (deployStep props acc nm).1.serviceAccounts =
      match props.addons.find? (fun a => a.name == nm) with
      | some cfg =>
        if cfg.enabled then
          match cfg.serviceAccount with
          | some _ => objSet acc.serviceAccounts nm
              (createServiceAccountRole props.cluster cfg props.environment)
          | none => acc.serviceAccounts
        else acc.serviceAccounts
      | none => acc.serviceAccounts := by
  unfold deployStep
  cases hf : props.addons.find? (fun a => a.name == nm) with
  | none => rfl
  | some cfg =>
    dsimp only
    cases hen : cfg.enabled with
    | false => simp
    | true =>
      simp only [eq_self_iff_true, not_true, if_false, if_true]
      cases hsa : cfg.serviceAccount with
      | none =>
        dsimp only
        split <;> (try split) <;> (try split) <;> rfl
      | some sa =>
        dsimp only
        split <;> (try split) <;> (try split) <;> rfl

theorem deployStep_sa_get (props : AddonBuilderProps) (acc : DeployAcc)
    (nm k : String) :
    objGet (deployStep props acc nm).1.serviceAccounts k =
      match saRoleForName props nm with
      | some r => if nm = k then some r else objGet acc.serviceAccounts k
      | none => objGet acc.serviceAccounts k := by
  rw [deployStep_serviceAccounts]
  unfold saRoleForName
  cases hf : props.addons.find? (fun a => a.name == nm) with
  | none => rfl
  | some cfg =>
    dsimp only
    cases hen : cfg.enabled with
    | false => simp
    | true =>
      simp only [if_true, true_and]
      cases hsa : cfg.serviceAccount with
      | none => simp
      | some sa =>
        simp only [Option.isSome_some, if_true]
        by_cases hk : nm = k
        · subst hk
          rw [objGet_objSet_self]
          simp
        · rw [objGet_objSet_ne _ _ _ _ hk]
          simp [hk]

theorem deployAddons_sa_get (props : AddonBuilderProps) :
    ∀ (order : List String) (acc acc' : DeployAcc),
      deployAddons props order acc = (acc', none) → ∀ k,
      objGet acc'.serviceAccounts k =
        if k ∈ order ∧ (saRoleForName props k).isSome = true
        then saRoleForName props k
        else objGet acc.serviceAccounts k := by
  intro order
  induction order with
  | nil =>
    intro acc acc' h k
    unfold deployAddons at h
    injection h with h1 _
    subst h1
    simp
  | cons nm rest ih =>
    intro acc acc' h k
    unfold deployAddons at h
    revert h
    rcases hstep : deployStep props acc nm with ⟨acc1, e1⟩
    cases e1 with
    | some e => intro h; cases h
    | none =>
      intro h
      have hrest := ih acc1 acc' h k
      have hstep1 : objGet acc1.serviceAccounts k =
          match saRoleForName props nm with
          | some r => if nm = k then some r
              else objGet acc.serviceAccounts k
          | none => objGet acc.serviceAccounts k := by
        have := deployStep_sa_get props acc nm k
        rw [hstep] at this
        exact this
      by_cases hk1 : k ∈ rest ∧ (saRoleForName props k).isSome = true
      · rw [hrest, if_pos hk1, if_pos ⟨List.mem_cons_of_mem _ hk1.1, hk1.2⟩]
      · rw [hrest, if_neg hk1, hstep1]
        cases hrole : saRoleForName props nm with
        | none =>
          dsimp only
          have hknm : ¬ (k ∈ nm :: rest ∧
              (saRoleForName props k).isSome = true) := by
            intro ⟨hmem, hsome⟩
            rcases List.mem_cons.1 hmem with rfl | hmem'
            · rw [hrole] at hsome
              cases hsome
            · exact hk1 ⟨hmem', hsome⟩
          rw [if_neg hknm]
        | some r =>
          dsimp only
          by_cases hknm : nm = k
          · subst hknm
            rw [if_pos rfl]
            have : (saRoleForName props nm).isSome = true := by
              rw [hrole]
              rfl
            rw [if_pos ⟨List.mem_cons_self _ _, this⟩, hrole]
          · rw [if_neg hknm]
            have hknot : ¬ (k ∈ nm :: rest ∧
                (saRoleForName props k).isSome = true) := by
              intro ⟨hmem, hsome⟩
              rcases List.mem_cons.1 hmem with rfl | hmem'
              · exact hknm rfl
              · exact hk1 ⟨hmem', hsome⟩
            rw [if_neg hknot]

theorem construct_ok_parts (props : AddonBuilderProps)
    (out : AddonBuilderOutput) (hok : construct props = .ok out) :
    validateProps props = .ok () ∧
    resolveDeploymentOrder props.addons props.dependencies =
      .ok out.deploymentOrder ∧
    deployAddons props out.deploymentOrder emptyAcc =
      (⟨out.helmCharts, out.serviceAccounts, out.namespaces⟩, none) := by
  unfold construct at hok
  cases hval : validateProps props with
  | error e =>
    rw [hval] at hok
    cases hok
  | ok u =>
    cases u
    rw [hval] at hok
    dsimp only at hok
    cases hres : resolveDeploymentOrder props.addons props.dependencies with
    | error e =>
      rw [hres] at hok
      cases hok
    | ok dp =>
      rw [hres] at hok
      dsimp only at hok
      rcases hda : deployAddons props dp emptyAcc with ⟨acc, e1⟩
      rw [hda] at hok
      cases e1 with
      | some e =>
        dsimp only at hok
        cases hok
      | none =>
        dsimp only at hok
        injection hok with h
        subst h
        exact ⟨rfl, rfl, hda⟩

theorem intercalate3 (x y z : String) :
    String.intercalate "-" [x, y, z] = x ++ "-" ++ y ++ "-" ++ z := by
  simp [String.intercalate, String.intercalate.go]

theorem generateResourceName_sa (env nm : String) :
    generateResourceName "admiral" env ("sa-" ++ nm) =
      ("admiral-" ++ env ++ "-sa-" ++ nm).toLower := by
  unfold generateResourceName
  have hsuf : strTruthy none = false := rfl
  rw [hsuf]
  simp only [Bool.false_eq_true, if_false, List.append_nil]
  rw [intercalate3]
  have h1 : ("admiral" ++ "-" : String) = "admiral-" := rfl
  have h2 : ∀ s : String, "-" ++ ("sa-" ++ s) = "-sa-" ++ s := by
    intro s
    rw [← String.append_assoc]
    rfl
  rw [String.append_assoc ("admiral" ++ "-" ++ env), h2, h1,
    ← String.append_assoc]

/-- C7: whenever construction completes, every enabled addon with a
serviceAccount block has exactly one federated role in the output,
returned by `getServiceAccountRole`: its name follows the fixed
lower-cased scheme `admiral-<environment>-sa-<serviceAccountName>`, its
trust policy is scoped to the cluster's OIDC provider and binds only
the subject `system:serviceaccount:<namespace>:<name>` and the audience
`sts.amazonaws.com` under `sts:AssumeRoleWithWebIdentity`, and every
supplied policy statement is attached; for addon names for which no
role was created, `getServiceAccountRole` returns absent. -/
theorem claim_C7 (props : AddonBuilderProps) (out : AddonBuilderOutput)
    (cfg : AddonConfig) (sa : ServiceAccountConfig)
    (hok : construct props = .ok out)
    (hmem : cfg ∈ props.addons)
    (hen : cfg.enabled = true)
    (hsa : cfg.serviceAccount = some sa) :
    getServiceAccountRole out cfg.name =
      some (createServiceAccountRole props.cluster cfg props.environment) ∧
    (createServiceAccountRole props.cluster cfg
        props.environment).roleName =
      ("admiral-" ++ props.environment ++ "-sa-" ++ sa.name).toLower ∧
    (createServiceAccountRole props.cluster cfg
        props.environment).assumedBy.federated =
      props.cluster.openIdConnectProviderArn ∧
    (createServiceAccountRole props.cluster cfg
        props.environment).assumedBy.conditionsStringEquals =
      [(replaceFirst props.cluster.clusterOpenIdConnectIssuerUrl
          "https://" "" ++ ":sub",
        "system:serviceaccount:" ++ sa.«namespace» ++ ":" ++ sa.name),
       (replaceFirst props.cluster.clusterOpenIdConnectIssuerUrl
          "https://" "" ++ ":aud",
        "sts.amazonaws.com")] ∧
    (createServiceAccountRole props.cluster cfg
        props.environment).assumedBy.assumeAction =
      "sts:AssumeRoleWithWebIdentity" ∧
    (createServiceAccountRole props.cluster cfg
        props.environment).policies = sa.policyStatements ∧
    (∀ nm, (∀ c ∈ props.addons, c.name = nm →
        ¬ (c.enabled = true ∧ c.serviceAccount.isSome = true)) →
      getServiceAccountRole out nm = none) := by
  obtain ⟨hval, hres, hda⟩ := construct_ok_parts props out hok
  have hnodup : (props.addons.map (fun a => a.name)).Nodup :=
    findDuplicates_nil_nodup _ (validateProps_ok_noDuplicates props hval)
  have hfind := find?_name_of_mem props.addons cfg hnodup hmem
  have hsa' : cfg.serviceAccount.getD ⟨"", "", []⟩ = sa := by
    rw [hsa]
    rfl
  have hrole : saRoleForName props cfg.name =
      some (createServiceAccountRole props.cluster cfg props.environment) := by
    unfold saRoleForName
    rw [hfind]
    dsimp only
    rw [if_pos ⟨hen, by rw [hsa]; rfl⟩]
  refine ⟨?_, ?_, ?_, ?_, ?_, ?_, ?_⟩
  · have hmemorder : cfg.name ∈ out.deploymentOrder := by
      obtain ⟨hsup, _, _, _⟩ := resolve_ok_facts props.addons
        props.dependencies out.deploymentOrder hres
      exact hsup _ (List.mem_map.2 ⟨cfg, hmem, rfl⟩)
    have hget := deployAddons_sa_get props out.deploymentOrder emptyAcc
      ⟨out.helmCharts, out.serviceAccounts, out.namespaces⟩ hda cfg.name
    dsimp only at hget
    show objGet out.serviceAccounts cfg.name = _
    rw [hget, if_pos ⟨hmemorder, by rw [hrole]; rfl⟩, hrole]
  · show generateResourceName "admiral" props.environment
        ("sa-" ++ (cfg.serviceAccount.getD ⟨"", "", []⟩).name) = _
    rw [hsa']
    exact generateResourceName_sa props.environment sa.name
  · rfl
  · show [(replaceFirst props.cluster.clusterOpenIdConnectIssuerUrl
        "https://" "" ++ ":sub",
      "system:serviceaccount:" ++
        (cfg.serviceAccount.getD ⟨"", "", []⟩).«namespace» ++ ":" ++
        (cfg.serviceAccount.getD ⟨"", "", []⟩).name),
     (replaceFirst props.cluster.clusterOpenIdConnectIssuerUrl
        "https://" "" ++ ":aud", "sts.amazonaws.com")] = _
    rw [hsa']
  · rfl
  · show (cfg.serviceAccount.getD ⟨"", "", []⟩).policyStatements = _
    rw [hsa']
  · intro nm hno
    have hget := deployAddons_sa_get props out.deploymentOrder emptyAcc
      ⟨out.helmCharts, out.serviceAccounts, out.namespaces⟩ hda nm
    dsimp only at hget
    have hsr : saRoleForName props nm = none := by
      unfold saRoleForName
      cases hfind2 : props.addons.find? (fun a => a.name == nm) with
      | none => rfl
      | some c =>
        dsimp only
        have hcmem : c ∈ props.addons := List.mem_of_find?_eq_some hfind2
        have hcname : c.name = nm := by
          have := List.find?_some hfind2
          exact beq_iff_eq.1 this
        rw [if_neg (hno c hcmem hcname)]
    show objGet out.serviceAccounts nm = none
    rw [hget, hsr]
    rw [if_neg (fun h => by simpa using h.2)]
    rfl

/-- Input for the C7 witness: an enabled `helm-cli` addon with a
serviceAccount block (mirrors the repo test `should provide service
account role access`; `helm-cli` avoids the unrelated C3 crash of the
cdk-helm path). -/
def c7Cfg : AddonConfig :=
  { name := "test-addon", enabled := true, deploymentMethod := .helmCli,
    serviceAccount := some ⟨"test-sa", "default", ["policy-1"]⟩ }

def c7Props : AddonBuilderProps :=
  ⟨⟨"https://oidc.example/id/XYZ",
    "arn:aws:iam::123456789012:oidc-provider/oidc.example/id/XYZ"⟩,
   "test", "basic-cloud", [c7Cfg], []⟩

def c7Out : AddonBuilderOutput :=
  match construct c7Props with
  | .ok o => o
  | .error _ => ⟨[], [], [], []⟩

/-- C7 witness: `claim_C7` applied to the concrete helm-cli input. -/
theorem witness_C7 :
    getServiceAccountRole c7Out "test-addon" =
      some (createServiceAccountRole c7Props.cluster c7Cfg
        c7Props.environment) ∧
    (createServiceAccountRole c7Props.cluster c7Cfg
        c7Props.environment).roleName =
      ("admiral-test-sa-test-sa" : String).toLower ∧
    getServiceAccountRole c7Out "other-addon" = none := by
  have hok : construct c7Props = .ok c7Out := rfl
  have h := claim_C7 c7Props c7Out c7Cfg ⟨"test-sa", "default", ["policy-1"]⟩
    hok (by simp [c7Props]) rfl rfl
  refine ⟨h.1, ?_, ?_⟩
  · rw [h.2.1]
    rfl
  · refine h.2.2.2.2.2.2 "other-addon" ?_
    intro c hc hcn
    simp [c7Props, c7Cfg] at hc
    subst hc
    simp [c7Cfg] at hcn


/-- C10: the public method `getAddon(name)` returns `undefined` (absent)
for every input name, including names of addons supplied to the
constructor and present in the resolved deployment order. -/
theorem claim_C10 (builder : AddonBuilderOutput) (name : String) :
    getAddon builder name = none :=
  rfl

/-! C5: structural validation short-circuits at the first violation -/

/-- An addon violating "missing name" and an addon violating "cdk-helm
without helmConfig", in both orders. -/
def c5AddonNoName : AddonConfig :=
  { name := "", enabled := true, deploymentMethod := .helmCli }

def c5AddonNoHelm : AddonConfig :=
  { name := "bad-helm", enabled := true, deploymentMethod := .cdkHelm }

def c5Cluster : Cluster := ⟨"https://oidc.example", "arn:oidc-provider"⟩

def c5PropsA : AddonBuilderProps :=
  ⟨c5Cluster, "test", "basic-cloud", [c5AddonNoName, c5AddonNoHelm], []⟩

def c5PropsB : AddonBuilderProps :=
  ⟨c5Cluster, "test", "basic-cloud", [c5AddonNoHelm, c5AddonNoName], []⟩

/-- C5 counterexample: with two addons that each violate a structural
rule, validation reports only the first violating addon (whichever comes
first), not one error per violation. -/
theorem counterexample_C5 :
    validateProps c5PropsA = .error (.missingName 0) ∧
    validateProps c5PropsB = .error (.helmConfigRequired "bad-helm") ∧
    AdmiralError.missingName 0 ≠ .helmConfigRequired "bad-helm" := by
  refine ⟨rfl, rfl, by decide⟩

/-- Helper for the amended C5: `validateAddons` returns the error of the
first violating addon, scanning in order from index `k`. -/
theorem validateAddons_first_error (pre : List AddonConfig)
    (a : AddonConfig) (post : List AddonConfig) (k : Nat) (e : AdmiralError)
    (hpre : ∀ j x, pre.get? j = some x → validateAddon x (k + j) = .ok ())
    (ha : validateAddon a (k + pre.length) = .error e) :
    validateAddons (pre ++ a :: post) k = .error e := by
  induction pre generalizing k with
  | nil =>
    have ha' : validateAddon a k = .error e := by simpa using ha
    simp [validateAddons, ha']
  | cons hd tl ih =>
    have hhd : validateAddon hd k = .ok () := by
      have := hpre 0 hd (by simp)
      simpa using this
    simp only [List.cons_append, validateAddons, hhd]
    refine ih (k + 1) (fun j x hj => ?_) ?_
    · have h2 := hpre (j + 1) x (by simpa using hj)
      have he : k + 1 + j = k + (j + 1) := by omega
      rw [he]
      exact h2
    · have he : k + 1 + tl.length = k + (hd :: tl).length := by
        simp [List.length_cons]
        omega
      rw [he]
      exact ha

/-- C5 (amended): per-addon structural validation iterates the addon list
in order and aborts at the first violation: exactly one error is raised,
the one of the first violating addon (identified by name or index);
later addons are not checked.  Construction fails with that error. -/
theorem claim_C5 (props : AddonBuilderProps) (pre : List AddonConfig)
    (a : AddonConfig) (post : List AddonConfig) (e : AdmiralError)
    (hsplit : props.addons = pre ++ a :: post)
    (hdup : findDuplicates (props.addons.map (fun x => x.name)) = [])
    (hpre : ∀ j x, pre.get? j = some x → validateAddon x j = .ok ())
    (ha : validateAddon a pre.length = .error e) :
    validateProps props = .error e ∧ construct props = .error e := by
  have hva : validateAddons props.addons 0 = .error e := by
    rw [hsplit]
    exact validateAddons_first_error pre a post 0 e
      (fun j x hj => by simpa using hpre j x hj) (by simpa using ha)
  have hv : validateProps props = .error e := by
    simp only [validateProps, hdup, List.length_nil, gt_iff_lt,
      Nat.lt_irrefl, if_false, hva]
  exact ⟨hv, by unfold construct; rw [hv]⟩

/-- C5 amended-claim witness: a well-formed addon followed by two
violating addons; validation stops at the first violation (index 1). -/
theorem witness_C5 :
    validateProps ⟨c5Cluster, "test", "basic-cloud",
      [{ name := "good", enabled := true, deploymentMethod := .helmCli },
       c5AddonNoName, c5AddonNoHelm], []⟩ = .error (.missingName 1) ∧
    construct ⟨c5Cluster, "test", "basic-cloud",
      [{ name := "good", enabled := true, deploymentMethod := .helmCli },
       c5AddonNoName, c5AddonNoHelm], []⟩ = .error (.missingName 1) := by
  refine claim_C5 _
    [{ name := "good", enabled := true, deploymentMethod := .helmCli }]
    c5AddonNoName [c5AddonNoHelm] (.missingName 1) rfl rfl ?_ rfl
  intro j x hj
  match j with
  | 0 =>
    simp only [List.get?] at hj
    cases hj
    rfl
  | j + 1 => simp [List.get?] at hj

/-! C3: Helm values merge reads `this.output` before it is assigned -/

/-- The repository's own test input `should create service account with
IAM role` (enabled cdk-helm addon with a serviceAccount block). -/
def c3Props : AddonBuilderProps :=
  ⟨⟨"https://oidc.eks.example/id/ABC", "arn:aws:iam::123456789012:oidc-provider/oidc.eks.example/id/ABC"⟩,
   "test", "basic-cloud",
   [{ name := "aws-load-balancer-controller"
      enabled := true
      deploymentMethod := .cdkHelm
      helmConfig := some { chart := "aws-load-balancer-controller" }
      «namespace» := some "kube-system"
      serviceAccount := some ⟨"aws-load-balancer-controller", "kube-system", ["allow-ec2-describe"]⟩ }],
   []⟩

/-- C3: deploying an enabled cdk-helm addon with a serviceAccount block
raises a `TypeError`: the values merge reads
`this.output.serviceAccounts`, but `this.output` is assigned only after
the deployment loop, so the read sees `undefined` and construction
aborts (the IAM role itself was already created before the crash). -/
theorem claim_C3 :
    construct c3Props = .error (.typeError "serviceAccounts") ∧
    (constructSideEffects c3Props).serviceAccounts.length = 1 ∧
    (constructSideEffects c3Props).helmCharts = [] := by
  exact ⟨rfl, rfl, rfl⟩

/-! C4: namespace ordering dependency reads `this.output` too -/

/-- The repository's own test input `should create namespace when
requested` (enabled cdk-helm addon with createNamespace + namespace). -/
def c4Props : AddonBuilderProps :=
  ⟨⟨"https://oidc.eks.example/id/ABC", "arn:aws:iam::123456789012:oidc-provider/oidc.eks.example/id/ABC"⟩,
   "test", "basic-cloud",
   [{ name := "cert-manager"
      enabled := true
      deploymentMethod := .cdkHelm
      helmConfig := some { chart := "cert-manager",
                           repository := some "https://charts.jetstack.io" }
      «namespace» := some "cert-manager"
      createNamespace := some true }],
   []⟩

/-- C4: for an addon with createNamespace and namespace set, the release
is never wired to the namespace manifest: after submitting the chart the
code reads `this.output.namespaces` to look the manifest up, but
`this.output` is still unassigned, so construction aborts with a
`TypeError` (the namespace manifest itself was already created). -/
theorem claim_C4 :
    construct c4Props = .error (.typeError "namespaces") ∧
    (constructSideEffects c4Props).namespaces.length = 1 ∧
    (constructSideEffects c4Props).helmCharts = [] := by
  exact ⟨rfl, rfl, rfl⟩

/-! C6: disabled addons are skipped at deploy time but kept in the order -/

def c6Addon1 (n c : String) : AddonConfig :=
  { name := n, enabled := false, deploymentMethod := .cdkHelm,
    helmConfig := some { chart := c } }

def c6Addon2 (n c : String) : AddonConfig :=
  { name := n, enabled := true, deploymentMethod := .cdkHelm,
    helmConfig := some { chart := c } }

def c6Props (n1 n2 c1 c2 : String) : AddonBuilderProps :=
  ⟨⟨"https://oidc.example", "arn:oidc-provider"⟩, "test", "basic-cloud",
   [c6Addon1 n1 c1, c6Addon2 n2 c2], []⟩

theorem c6_validate (n1 n2 c1 c2 : String) (h12 : n1 ≠ n2) (h1 : n1 ≠ "")
    (h2 : n2 ≠ "") (hc1 : c1 ≠ "") (hc2 : c2 ≠ "") :
    validateProps (c6Props n1 n2 c1 c2) = .ok () := by
  have hfd : findDuplicates [n1, n2] = [] := by
    unfold findDuplicates
    have hidx2 : List.indexOf n2 [n1, n2] = 1 := by
      rw [List.indexOf_cons_ne _ h12, List.indexOf_cons_self]
    simp [List.enum, List.enumFrom, List.indexOf_cons_self, hidx2]
  have hva1 : validateAddon (c6Addon1 n1 c1) 0 = .ok () := by
    unfold validateAddon c6Addon1
    simp [h1, hc1]
  have hva2 : validateAddon (c6Addon2 n2 c2) 1 = .ok () := by
    unfold validateAddon c6Addon2
    simp [h2, hc2]
  have hadd : validateAddons [c6Addon1 n1 c1, c6Addon2 n2 c2] 0 = .ok () := by
    unfold validateAddons
    rw [hva1]
    unfold validateAddons
    rw [hva2]
    rfl
  rw [validateProps_eq_deps (c6Props n1 n2 c1 c2) hfd hadd]
  rfl

theorem c6_resolve (n1 n2 c1 c2 : String) (h12 : n1 ≠ n2) :
    resolveDeploymentOrder [c6Addon1 n1 c1, c6Addon2 n2 c2] [] =
      .ok [n1, n2] := by
  have hvtd2 : ([n1] : List String).contains n2 = false := by
    apply (contains_false_iff _ _).2
    simp only [List.mem_singleton]
    exact Ne.symm h12
  have step1 : visit [n1, n2] [] ([n1, n2].length + 1) n1 ⟨[], [], []⟩ =
      .ok ⟨[], [n1], [n1]⟩ := by
    rw [visit_succ_main [n1, n2] [] [n1, n2].length n1 ⟨[], [], []⟩ rfl rfl]
    simp [mapGet, jsGet, visitDeps, setAdd, List.erase_cons_head]
  have step2 : visit [n1, n2] [] ([n1, n2].length + 1) n2 ⟨[], [n1], [n1]⟩ =
      .ok ⟨[], [n1, n2], [n1, n2]⟩ := by
    rw [visit_succ_main [n1, n2] [] [n1, n2].length n2 ⟨[], [n1], [n1]⟩ rfl
      hvtd2]
    simp [mapGet, jsGet, visitDeps, setAdd, List.erase_cons_head, hvtd2]
    exact fun h => h12 h.symm
  have hall : visitAll [n1, n2] [] ([n1, n2].length + 1) [n1, n2]
      ⟨[], [], []⟩ = .ok ⟨[], [n1, n2], [n1, n2]⟩ := by
    rw [visitAll_cons_not [n1, n2] [] ([n1, n2].length + 1) n1 [n2]
      ⟨[], [], []⟩ rfl, step1]
    dsimp only
    rw [visitAll_cons_not [n1, n2] [] ([n1, n2].length + 1) n2 []
      ⟨[], [n1], [n1]⟩ hvtd2, step2]
    dsimp only
    rfl
  rw [resolveDeploymentOrder_eq]
  have hM : buildDependencyMap [c6Addon1 n1 c1, c6Addon2 n2 c2] [] = [] := rfl
  have hN : ([c6Addon1 n1 c1, c6Addon2 n2 c2].map (fun a => a.name)) =
      [n1, n2] := rfl
  rw [hM, hN, hall]

/-- The single Helm chart the enabled addon produces. -/
def c6Chart (n2 c2 : String) : HelmChart :=
  { id := n2 ++ "-chart"
    chart := c2
    repository := none
    version := none
    release := n2 ++ "-" ++ "test"
    «namespace» := none
    createNamespace := false
    values := []
    dependencies := [] }

theorem c6_deploy (n1 n2 c1 c2 : String) (hb12 : (n1 == n2) = false) :
    deployAddons (c6Props n1 n2 c1 c2) [n1, n2] emptyAcc =
      (⟨[c6Chart n2 c2], [], []⟩, none) := by
  simp [deployAddons, deployStep, deployHelmChart, c6Props, c6Addon1,
    c6Addon2, c6Chart, emptyAcc, hb12, strTruthy, boolTruthy, List.find?]

/-- C6: with one disabled and one enabled addon and no dependencies,
construction succeeds producing exactly one Helm chart (the enabled
addon's), no namespaces and no service-account roles, yet the deployment
order lists both names and `isAddonDeployed` answers true for both. -/
theorem claim_C6 (n1 n2 c1 c2 : String) (h12 : n1 ≠ n2) (h1 : n1 ≠ "")
    (h2 : n2 ≠ "") (hc1 : c1 ≠ "") (hc2 : c2 ≠ "") :
    ∃ out, construct (c6Props n1 n2 c1 c2) = .ok out ∧
      out.helmCharts.map (fun c => c.id) = [n2 ++ "-chart"] ∧
      out.namespaces = [] ∧
      out.serviceAccounts = [] ∧
      out.deploymentOrder = [n1, n2] ∧
      isAddonDeployed out n1 = true ∧
      isAddonDeployed out n2 = true := by
  have hb12 : (n1 == n2) = false := by
    exact beq_eq_false_iff_ne.2 h12
  have hres : resolveDeploymentOrder (c6Props n1 n2 c1 c2).addons
      (c6Props n1 n2 c1 c2).dependencies = .ok [n1, n2] :=
    c6_resolve n1 n2 c1 c2 h12
  have hdep : deployAddons (c6Props n1 n2 c1 c2) [n1, n2] emptyAcc =
      (⟨[c6Chart n2 c2], [], []⟩, none) := c6_deploy n1 n2 c1 c2 hb12
  unfold construct
  rw [c6_validate n1 n2 c1 c2 h12 h1 h2 hc1 hc2]
  dsimp only
  rw [hres]
  dsimp only
  rw [hdep]
  dsimp only
  refine ⟨_, rfl, rfl, rfl, rfl, rfl, ?_, ?_⟩
  · simp [isAddonDeployed]
  · simp [isAddonDeployed]

theorem witness_C6 :
    ("disabled-addon" : String) ≠ "enabled-addon" ∧
    (∃ out,
      construct (c6Props "disabled-addon" "enabled-addon" "chart-a"
        "chart-b") = .ok out ∧
      out.helmCharts.map (fun c => c.id) = ["enabled-addon" ++ "-chart"] ∧
      out.namespaces = [] ∧
      out.serviceAccounts = [] ∧
      out.deploymentOrder = ["disabled-addon", "enabled-addon"] ∧
      isAddonDeployed out "disabled-addon" = true ∧
      isAddonDeployed out "enabled-addon" = true) :=
  ⟨by decide,
   claim_C6 "disabled-addon" "enabled-addon" "chart-a" "chart-b"
     (by decide) (by decide) (by decide) (by decide) (by decide)⟩

end Admiral
